import Mathlib

/-!
# goworld: Redis KVDB backend, client entity and tunable constants

A shallow embedding of

* `engine/kvdb/backend/kvdbredis/kvdb_redis.go` (namespace `kvdbredis`),
* `examples/test_client/ClientEntity.go` (namespace `test_client`),
* `consts/consts.go` (namespace `consts`),

followed by the theorems that relate the embedded code to its specification.

Conventions.  A Go `string` is an immutable byte sequence and `<` on strings is
the bytewise lexicographic order, so strings are lists of bytes here.  Go maps
are association lists read through `GoMap.get`; where the code hands a map
around by reference (the attribute tree), the map objects live at addresses.  A
Go `panic` is the `none`, `Except.error` or `Outcome.panicked` outcome of the
embedded function.  Calls to `gwlog` only write
to the log and are left out, but for the warning about a missing attribute
callback, which is recorded.  The libraries the code calls (`redigo`,
`google/btree`, `goTimer`, `typeconv`, `reflect`) are outside the repository:
each is represented by its documented behaviour or taken as a parameter, as
said at its definition.
-/

/-! ## Go strings and maps -/

/-- A Go string: a sequence of bytes, ordered lexicographically byte by byte. -/
abbrev GoString := List (Fin 256)

/-- The Go string literal with the given ASCII text. -/
def ascii (s : String) : GoString := s.toList.map (fun c => Fin.ofNat c.toNat)

/-- A Go `map[K]V`: an association list in which the first binding of a key is
the live one. -/
abbrev GoMap (κ : Type) (α : Type) := List (κ × α)

namespace GoMap

variable {κ : Type} {α : Type} [DecidableEq κ]

/-- Go `v, ok := m[k]`. -/
def get (m : GoMap κ α) (k : κ) : Option α :=
  match m with
  | [] => none
  | (k', v) :: rest => if k' = k then some v else get rest k

/-- Go `delete(m, k)`. -/
def del (m : GoMap κ α) (k : κ) : GoMap κ α :=
  m.filter (fun kv => decide (kv.1 ≠ k))

/-- Go `m[k] = v`. -/
def set (m : GoMap κ α) (k : κ) (v : α) : GoMap κ α :=
  (k, v) :: del m k

end GoMap

/-! ## `kvdb_redis.go` -/

namespace kvdbredis

/-- Go `error` values that the backend can surface. -/
inductive GoError where
  | EOF
  | ErrUnexpectedEOF
  | other (msg : String)
  deriving DecidableEq, Repr

/-- The constant `keyPrefix = "_KV_"`. -/
def keyPrefix : GoString := ascii "_KV_"

/-- The Redis connection `redis.Conn` together with the server behind it: the
server keyspace `data`, and `faults`, the outcome of the round trips still to
come (`some e`: that round trip fails with `e`; an exhausted list: no failure). -/
structure RedisConn where
  data : GoMap GoString GoString
  faults : List (Option GoError)

/-- One network round trip: consumes the next scheduled outcome. -/
def RedisConn.roundTrip (c : RedisConn) : Option GoError × RedisConn :=
  match c.faults with
  | [] => (none, c)
  | f :: fs => (f, { c with faults := fs })

/-- The call `c.Do("GET", k)`: the reply is `nil` (here `none`) or the bulk string. -/
def RedisConn.DoGET (c : RedisConn) (k : GoString) :
    (Option GoString × Option GoError) × RedisConn :=
  match c.roundTrip with
  | (some e, c') => ((none, some e), c')
  | (none, c') => ((c'.data.get k, none), c')

/-- The call `c.Do("SET", k, v)`. -/
def RedisConn.DoSET (c : RedisConn) (k v : GoString) : Option GoError × RedisConn :=
  match c.roundTrip with
  | (some e, c') => (some e, c')
  | (none, c') => (none, { c' with data := c'.data.set k v })

/-- Insertion of `k` into an ascending list, replacing an equal element. -/
def insertKey (k : GoString) : List GoString → List GoString
  | [] => [k]
  | x :: xs =>
    if k < x then k :: x :: xs
    else if x < k then x :: insertKey k xs
    else k :: xs

theorem mem_insertKey (k x : GoString) (l : List GoString) :
    x ∈ insertKey k l ↔ x = k ∨ x ∈ l := by
  induction l with
  | nil => simp [insertKey]
  | cons y ys ih =>
    unfold insertKey
    by_cases h1 : k < y
    · simp [h1]
    · by_cases h2 : y < k
      · simp only [h1, h2, if_false, if_true, List.mem_cons, ih]
        tauto
      · have hyk : y = k := le_antisymm (not_lt.mp h1) (not_lt.mp h2)
        simp [h1, h2, hyk]

theorem sorted_insertKey (k : GoString) (l : List GoString)
    (h : l.Sorted (· < ·)) : (insertKey k l).Sorted (· < ·) := by
  induction l with
  | nil => simp [insertKey]
  | cons y ys ih =>
    have hys : ys.Sorted (· < ·) := h.of_cons
    have hy : ∀ z ∈ ys, y < z := fun z hz => List.rel_of_sorted_cons h z hz
    unfold insertKey
    by_cases h1 : k < y
    · simp only [h1, if_true]
      refine List.sorted_cons.mpr ⟨?_, h⟩
      intro z hz
      rcases List.mem_cons.mp hz with rfl | hz
      · exact h1
      · exact lt_trans h1 (hy z hz)
    · by_cases h2 : y < k
      · simp only [h1, h2, if_false, if_true]
        refine List.sorted_cons.mpr ⟨?_, ih hys⟩
        intro z hz
        rcases (mem_insertKey k z ys).mp hz with rfl | hz
        · exact h2
        · exact hy z hz
      · have hyk : y = k := le_antisymm (not_lt.mp h1) (not_lt.mp h2)
        simp only [h1, h2, if_false]
        refine List.sorted_cons.mpr ⟨?_, hys⟩
        intro z hz
        exact hyk ▸ hy z hz

/-- The ordered set `*btree.BTree` of `github.com/google/btree` holding
`keyTreeItem`s, ordered by `keyTreeItem.Less` (`ki.key < other.key`): its items
in ascending order.  The library keeps at most one item per key, which is the
invariant `sorted`. -/
structure BTree where
  items : List GoString
  sorted : items.Sorted (· < ·)

/-- The call `btree.New(2)`: the empty tree. -/
def BTree.New : BTree := ⟨[], List.sorted_nil⟩

/-- The call `t.ReplaceOrInsert(keyTreeItem{k})`. -/
def BTree.ReplaceOrInsert (t : BTree) (k : GoString) : BTree :=
  ⟨insertKey k t.items, sorted_insertKey k t.items t.sorted⟩

/-- The call `t.Has(keyTreeItem{k})`. -/
def BTree.Has (t : BTree) (k : GoString) : Bool :=
  t.items.contains k

/-- The in-order walk behind `AscendRange`: items below `greaterOrEqual` are
skipped, the walk stops at the first item that is not below `lessThan` and when
the iterator returns `false`; the iterator threads its captured state `σ`. -/
def ascend {σ : Type} (greaterOrEqual lessThan : GoString)
    (iterator : σ → GoString → σ × Bool) : List GoString → σ → σ
  | [], s => s
  | x :: xs, s =>
    if x < greaterOrEqual then ascend greaterOrEqual lessThan iterator xs s
    else if ¬ x < lessThan then s
    else
      match iterator s x with
      | (s', true) => ascend greaterOrEqual lessThan iterator xs s'
      | (s', false) => s'

/-- The call `t.AscendRange(keyTreeItem{greaterOrEqual}, keyTreeItem{lessThan}, iterator)`. -/
def BTree.AscendRange {σ : Type} (t : BTree) (greaterOrEqual lessThan : GoString)
    (iterator : σ → GoString → σ × Bool) (init : σ) : σ :=
  ascend greaterOrEqual lessThan iterator t.items init

/-- The struct `redisKVDB`. -/
structure redisKVDB where
  c : RedisConn
  keyTree : BTree

/-- The struct `kvdbtypes.KVItem`. -/
structure KVItem where
  Key : GoString
  Val : GoString
  deriving DecidableEq, Repr

/-- The struct `redisKVDBIterator`; its `db` pointer is the database passed to `Next`. -/
structure redisKVDBIterator where
  leftKeys : List GoString
  deriving DecidableEq, Repr

/-- The method `redisKVDB.Get`. -/
def redisKVDB.Get (db : redisKVDB) (key : GoString) :
    (GoString × Option GoError) × redisKVDB :=
  match db.c.DoGET (keyPrefix ++ key) with
  | ((_, some err), c') => (([], some err), { db with c := c' })
  | ((none, none), c') => (([], none), { db with c := c' })
  | ((some r, none), c') => ((r, none), { db with c := c' })

/-- The method `redisKVDB.Put`; `Except.error` is the `panic`. -/
def redisKVDB.Put (db : redisKVDB) (key val : GoString) :
    Except String (Option GoError × redisKVDB) :=
  match db.c.DoSET (keyPrefix ++ key) val with
  | (some err, c') =>
    let keyTree := db.keyTree.ReplaceOrInsert key
    if !keyTree.Has key then
      Except.error "insert key tree fail"
    else
      Except.ok (some err, { c := c', keyTree := keyTree })
  | (none, c') => Except.ok (none, { db with c := c' })

/-- The method `redisKVDBIterator.Next`. -/
def redisKVDBIterator.Next (it : redisKVDBIterator) (db : redisKVDB) :
    (KVItem × Option GoError) × redisKVDBIterator × redisKVDB :=
  match it.leftKeys with
  | [] => ((⟨[], []⟩, some GoError.EOF), it, db)
  | key :: rest =>
    match db.Get key with
    | ((_, some err), db') => ((⟨[], []⟩, some err), ⟨rest⟩, db')
    | ((val, none), db') => ((⟨key, val⟩, none), ⟨rest⟩, db')

/-- The method `redisKVDB.Find`. -/
def redisKVDB.Find (db : redisKVDB) (beginKey endKey : GoString) :
    redisKVDBIterator × Option GoError :=
  let keys := db.keyTree.AscendRange beginKey endKey
    (fun (keys : List GoString) it => (keys ++ [it], true)) []
  (⟨keys⟩, none)

/-- The results of `n` successive calls of `Next` on an iterator. -/
def nextN : Nat → redisKVDBIterator → redisKVDB → List (KVItem × Option GoError)
  | 0, _, _ => []
  | n + 1, it, db =>
    match it.Next db with
    | (r, it', db') => r :: nextN n it' db'

/-- A freshly opened database over an empty Redis keyspace with no scheduled failure. -/
def emptyDB : redisKVDB := ⟨⟨[], []⟩, BTree.New⟩

/-- A database whose index holds `b`, `k` and `zz` while the server stores `k` only. -/
def sampleDB : redisKVDB :=
  ⟨⟨[(ascii "_KV_k", ascii "v")], []⟩,
    ((BTree.New.ReplaceOrInsert (ascii "k")).ReplaceOrInsert (ascii "zz")).ReplaceOrInsert
      (ascii "b")⟩

/-- No round trip still to come fails. -/
def RedisConn.NoFaults (c : RedisConn) : Prop := ∀ f ∈ c.faults, f = none

/-- The value `Get` reads for `key` from the server keyspace. -/
def redisKVDB.valueOf (db : redisKVDB) (key : GoString) : GoString :=
  (db.c.data.get (keyPrefix ++ key)).getD []

end kvdbredis


/-! ## `ClientEntity.go` -/

namespace test_client

/-- The address of a `map[string]interface{}` object.  Go maps are handed
around by reference: two values with the same address are the same map. -/
abbrev Addr := Nat

/-- A Go value stored in an `interface{}` slot of the attribute tree.  `map ref`
is a `map[string]interface{}`: a reference to the map object at that address, or
the nil map for `none`.  `imap` is a `map[interface{}]interface{}` as produced by
the packet decoder and `list` a `[]interface{}`; the file never writes to these,
so they are given by their entries. -/
inductive AttrVal where
  | null
  | bool (b : Bool)
  | int (n : Int)
  | str (s : GoString)
  | map (ref : Option Addr)
  | imap (m : List (AttrVal × AttrVal))
  | list (l : List AttrVal)

/-- The entries of a `ClientAttrs` (`map[string]interface{}`) object. -/
abbrev ClientAttrs := GoMap GoString AttrVal

/-- A `*timer.Timer`: timers are identified by their allocation number. -/
abbrev Timer := Nat

/-- Which wrapper closure a timer of the `goTimer` package runs when it fires. -/
inductive TimerKind where
  | callback
  | timer
  deriving DecidableEq, Repr

/-- The fields of the struct `ClientEntity` that the embedded methods use;
`Attrs` is the address of the root map, which `newClientEntity` makes. -/
structure ClientEntity where
  Attrs : Addr
  destroyed : Bool
  timers : GoMap Timer Bool

/-- The entity together with what surrounds it.  `maps` gives the entries of the
`map[string]interface{}` object at each address and `nextAddr` is the address the
next `make` returns: the objects that exist are those below it.  `closures` lists
the wrapper closure of every timer created so far (timer `t` is the `t`-th one),
`cancelled` the timers on which `t.Cancel()` was called, `ran` the timers whose
user callback was run, `invoked` the methods called through reflection and
`warned` the root keys for which `gwlog.Warn` reported a missing callback, all in
order of occurrence. -/
structure World where
  e : ClientEntity
  maps : Addr → ClientAttrs
  nextAddr : Addr
  closures : List TimerKind
  cancelled : List Timer
  ran : List Timer
  invoked : List GoString
  warned : List GoString

/-- How a call ends: it returns, or it panics; either way with the world as the
call left it (a panic undoes nothing). -/
inductive Outcome where
  | done (w : World)
  | panicked (w : World)

/-- The world a call leaves behind. -/
def Outcome.world : Outcome → World
  | Outcome.done w => w
  | Outcome.panicked w => w

/-- Whether the call returned. -/
def Outcome.isDone : Outcome → Bool
  | Outcome.done _ => true
  | Outcome.panicked _ => false

/-- What the file uses from outside it: the package variable `quiet`, and the
functions `typeconv.MapStringAnything` (on the entries of a
`map[interface{}]interface{}`, giving the entries of the map it makes) and
`typeconv.Int` (on what a map read returned, `none` for a missing key) of a
package outside the repository; for both, `none` is a panic. -/
structure Ext where
  quiet : Bool
  typeconvMapStringAnything : List (AttrVal × AttrVal) → Option ClientAttrs
  typeconvInt : Option AttrVal → Option Int

/-- The Go expression `e.timers[t]`. -/
def ClientEntity.timerLive (e : ClientEntity) (t : Timer) : Bool :=
  (e.timers.get t).getD false

/-- The method `ClientEntity.Destroy`. -/
def Destroy (w : World) : World :=
  if w.e.destroyed then w
  else { w with e := { w.e with destroyed := true } }

/-- The method `ClientEntity.AddCallback`: returns the new timer, a pointer
distinct from every timer created before. -/
def AddCallback (w : World) : Timer × World :=
  let t := w.closures.length
  (t, { w with closures := w.closures ++ [TimerKind.callback],
               e := { w.e with timers := w.e.timers.set t true } })

/-- The method `ClientEntity.AddTimer`: returns the new timer, a pointer
distinct from every timer created before. -/
def AddTimer (w : World) : Timer × World :=
  let t := w.closures.length
  (t, { w with closures := w.closures ++ [TimerKind.timer],
               e := { w.e with timers := w.e.timers.set t true } })

/-- The method `ClientEntity.CancelTimer`. -/
def CancelTimer (w : World) (t : Timer) : World :=
  { w with cancelled := w.cancelled ++ [t],
           e := { w.e with timers := w.e.timers.del t } }

/-- The closure that `AddCallback` hands to `timer.AddCallback`, run for timer `t`. -/
def fireCallback (w : World) (t : Timer) : World :=
  if !w.e.timerLive t then w
  else
    let w := { w with e := { w.e with timers := w.e.timers.del t } }
    if w.e.destroyed then w
    else { w with ran := w.ran ++ [t] }

/-- The closure that `AddTimer` hands to `timer.AddTimer`, run for timer `t`. -/
def fireTimer (w : World) (t : Timer) : World :=
  if !w.e.timerLive t then w
  else if w.e.destroyed then
    { w with cancelled := w.cancelled ++ [t],
             e := { w.e with timers := w.e.timers.del t } }
  else { w with ran := w.ran ++ [t] }

/-- The timer package fires timer `t`: the wrapper closure registered for `t`
runs; nothing runs for a timer that was never created. -/
def Fire (w : World) (t : Timer) : World :=
  match w.closures.get? t with
  | some TimerKind.callback => fireCallback w t
  | some TimerKind.timer => fireTimer w t
  | none => w

/-- What can happen to the timers of an entity, one operation at a time (the
owner lock serialises them).  A fire may arrive for any timer at any time, also
after `t.Cancel()`: no guarantee of the timer package is assumed.  The body of a
user callback is the events that follow its fire. -/
inductive Event where
  | AddCallback
  | AddTimer
  | CancelTimer (t : Timer)
  | Destroy
  | Fire (t : Timer)
  deriving DecidableEq, Repr

/-- One event. -/
def step (w : World) : Event → World
  | Event.AddCallback => (AddCallback w).2
  | Event.AddTimer => (AddTimer w).2
  | Event.CancelTimer t => CancelTimer w t
  | Event.Destroy => Destroy w
  | Event.Fire t => Fire w t

/-- A sequence of events, first to last. -/
def run (w : World) (evs : List Event) : World :=
  evs.foldl step w

/-- The entries read through a map reference; a nil map has none. -/
def deref (maps : Addr → ClientAttrs) : Option Addr → ClientAttrs
  | some a => maps a
  | none => []

/-- The world after the entries of the map object at `a` have become `m`. -/
def World.store (w : World) (a : Addr) (m : ClientAttrs) : World :=
  { w with maps := fun b => if b = a then m else w.maps b }

/-- The type assertion `v.(map[string]interface{})` applied to what a map read
returned (`none`: the key is missing and the read gave a nil interface); the
result is the reference held, and `none` is the panic of a failed assertion. -/
def assertMap : Option AttrVal → Option (Option Addr)
  | some (AttrVal.map ref) => some ref
  | _ => none

/-- The loop of `findAttrByPath`, entered with `i + 1` elements of `path` still
to visit (the loop index is then `i`) and `attr` the current map reference;
`none` is the panic of the failed type assertion
`attr[name].(map[string]interface{})`. -/
def findAttrLoop (maps : Addr → ClientAttrs) (path : List GoString) :
    Nat → Option Addr → Option (Option Addr)
  | 0, attr => some attr
  | i + 1, attr =>
    match path.get? i with
    | none => none
    | some name =>
      match assertMap ((deref maps attr).get name) with
      | some m => findAttrLoop maps path i m
      | none => none

/-- The method `ClientEntity.findAttrByPath`: the reference it returns. -/
def findAttrByPath (w : World) (path : List GoString) : Option (Option Addr) :=
  findAttrLoop w.maps path path.length (some w.e.Attrs)

/-- The method `ClientAttrs.HasKey`. -/
def HasKey (attrs : ClientAttrs) (key : GoString) : Bool :=
  (attrs.get key).isSome

/-- The method `ClientAttrs.GetInt`; `none` is the panic of `typeconv.Int`. -/
def GetInt (x : Ext) (attrs : ClientAttrs) (key : GoString) : Option Int :=
  x.typeconvInt (attrs.get key)

/-- The method `ClientEntity.OnAttrChange_exp`; `none` is a panic. -/
def OnAttrChange_exp (x : Ext) (w : World) : Option Unit :=
  if !x.quiet then
    (GetInt x (w.maps w.e.Attrs) (ascii "exp")).map (fun _ => ())
  else some ()

/-- The method `ClientEntity.OnAttrChange_testpop`; `none` is a panic. -/
def OnAttrChange_testpop (x : Ext) (w : World) : Option Unit :=
  if HasKey (w.maps w.e.Attrs) (ascii "testpop") then
    (GetInt x (w.maps w.e.Attrs) (ascii "testpop")).map (fun _ => ())
  else some ()

/-- The method `ClientEntity.OnAttrChange_subattr`. -/
def OnAttrChange_subattr (_x : Ext) (_w : World) : Option Unit :=
  some ()

/-- The lookup `reflect.ValueOf(e).MethodByName(name)` for a name that starts
with `OnAttrChange_`: the file declares three such methods on `*ClientEntity`
(its other exported methods are `String`, `Destroy`, `OnCreated`, `AddCallback`,
`AddTimer`, `CancelTimer`, `DoEnterRandomSpace` and `CallServer`); `none` is the
invalid value. -/
def MethodByName (name : GoString) : Option (Ext → World → Option Unit) :=
  if name = ascii "OnAttrChange_exp" then some OnAttrChange_exp
  else if name = ascii "OnAttrChange_testpop" then some OnAttrChange_testpop
  else if name = ascii "OnAttrChange_subattr" then some OnAttrChange_subattr
  else none

/-- The root key chosen by `applyAttrChange` and `applyAttrDel`. -/
def rootkey (path : List GoString) (key : GoString) : GoString :=
  if h : path.length > 0 then path[path.length - 1] else key

/-- The statement `if _, ok := val.(map[interface{}]interface{}); ok { val =
typeconv.MapStringAnything(val) }` of `applyAttrChange`: the value to store and
the world with the map the conversion has made; `none` is the panic of the
conversion. -/
def convertVal (x : Ext) (w : World) : AttrVal → Option (AttrVal × World)
  | AttrVal.imap m =>
    match x.typeconvMapStringAnything m with
    | none => none
    | some entries =>
      some (AttrVal.map (some w.nextAddr),
        { w.store w.nextAddr entries with nextAddr := w.nextAddr + 1 })
  | val => some (val, w)

/-- The lookup of the method `"OnAttrChange_" + rootkey` and its call, the common
tail of `applyAttrChange` and `applyAttrDel`. -/
def callAttrChangeCallback (x : Ext) (w : World) (rootkey : GoString) : Outcome :=
  let callbackFuncName := ascii "OnAttrChange_" ++ rootkey
  match MethodByName callbackFuncName with
  | none => Outcome.done { w with warned := w.warned ++ [rootkey] }
  | some callbackMethod =>
    let w := { w with invoked := w.invoked ++ [callbackFuncName] }
    match callbackMethod x w with
    | some () => Outcome.done w
    | none => Outcome.panicked w

/-- The method `ClientEntity.applyAttrChange`. -/
def applyAttrChange (x : Ext) (w : World) (path : List GoString) (key : GoString)
    (val : AttrVal) : Outcome :=
  match findAttrByPath w path with
  | none => Outcome.panicked w
  | some attr =>
    let rootkey := rootkey path key
    match convertVal x w val with
    | none => Outcome.panicked w
    | some (val, w) =>
      match attr with
      | none => Outcome.panicked w
      | some a => callAttrChangeCallback x (w.store a ((w.maps a).set key val)) rootkey

/-- The method `ClientEntity.applyAttrDel`. -/
def applyAttrDel (x : Ext) (w : World) (path : List GoString) (key : GoString) : Outcome :=
  match findAttrByPath w path with
  | none => Outcome.panicked w
  | some attr =>
    let rootkey := rootkey path key
    match attr with
    | none => callAttrChangeCallback x w rootkey
    | some a => callAttrChangeCallback x (w.store a ((w.maps a).del key)) rootkey

/-- The `for spaceKind == curSpaceKind` loop of `DoEnterRandomSpace`, run for at
most `fuel` evaluations of its condition: the final `spaceKind` with the number
of iterations of the body, or `none` when the fuel does not suffice. -/
def spaceKindLoop (SPACE_KIND_MIN SPACE_KIND_MAX curSpaceKind : Int) :
    Nat → Int → Nat → Option (Int × Nat)
  | 0, _, _ => none
  | fuel + 1, spaceKind, iterations =>
    if spaceKind = curSpaceKind then
      if spaceKind = SPACE_KIND_MAX then
        spaceKindLoop SPACE_KIND_MIN SPACE_KIND_MAX curSpaceKind fuel SPACE_KIND_MIN
          (iterations + 1)
      else
        spaceKindLoop SPACE_KIND_MIN SPACE_KIND_MAX curSpaceKind fuel (spaceKind + 1)
          (iterations + 1)
    else some (spaceKind, iterations)

/-- The method `ClientEntity.DoEnterRandomSpace`: the space kind passed to
`EnterSpace` and the number of loop iterations.  `currentSpace` is the kind of
`e.owner.currentSpace` (`none` for a nil space) and `r` the value returned by
`rand.Intn(SPACE_KIND_MAX-SPACE_KIND_MIN+1)`. -/
def DoEnterRandomSpace (SPACE_KIND_MIN SPACE_KIND_MAX : Int) (currentSpace : Option Int)
    (r : Int) (fuel : Nat) : Option (Int × Nat) :=
  let curSpaceKind := match currentSpace with
    | some kind => kind
    | none => 0
  let spaceKind := SPACE_KIND_MIN + r
  spaceKindLoop SPACE_KIND_MIN SPACE_KIND_MAX curSpaceKind fuel spaceKind 0

/-- The reference reached from the mapping `attr` by descending through `keys`,
first key first, each key holding a `map[string]interface{}`; `none` when a key
on the way is missing or holds anything else. -/
def descend (maps : Addr → ClientAttrs) : Option Addr → List GoString → Option (Option Addr)
  | attr, [] => some attr
  | none, _ :: _ => none
  | some o, name :: rest =>
    match GoMap.get (maps o) name with
    | some (AttrVal.map ref) => descend maps ref rest
    | _ => none

/-- The map objects that `descend` reads an entry of, in the order of the walk. -/
def ancestors (maps : Addr → ClientAttrs) : Option Addr → List GoString → List Addr
  | _, [] => []
  | none, _ :: _ => []
  | some o, name :: rest =>
    match GoMap.get (maps o) name with
    | some (AttrVal.map ref) => o :: ancestors maps ref rest
    | _ => [o]

/-- The behaviour of `typeconv.MapStringAnything` on the entries of a
`map[interface{}]interface{}`: every key must be a string (a key of another type
is a panic) and the values are kept as they are. -/
def MapStringAnything : List (AttrVal × AttrVal) → Option ClientAttrs
  | [] => some []
  | (AttrVal.str k, v) :: rest => (MapStringAnything rest).map (fun m => (k, v) :: m)
  | _ :: _ => none

/-- The behaviour of `typeconv.Int` on the values used below: an integer is
returned, a missing value and a map are a panic.  Values of other kinds are
never passed to it below. -/
def typeconvInt : Option AttrVal → Option Int
  | some (AttrVal.int n) => some n
  | _ => none

/-- The outside of the file with `quiet` unset. -/
def stdExt : Ext :=
  { quiet := false, typeconvMapStringAnything := MapStringAnything,
    typeconvInt := typeconvInt }

/-- An entity as `newClientEntity` makes it, in a world with no timer yet: the
root map is the empty object at address 0. -/
def newWorld : World :=
  { e := { Attrs := 0, destroyed := false, timers := [] },
    maps := fun _ => [], nextAddr := 1,
    closures := [], cancelled := [], ran := [], invoked := [], warned := [] }

/-- The attributes `{hp: 10, exp: 7, bag: {gold: 5, pouch: {gem: 1}}}`: the root
is object 0, `bag` is object 1 and `pouch` is object 2. -/
def bagWorld : World :=
  { newWorld with
    maps := fun a =>
      if a = 0 then
        [(ascii "hp", AttrVal.int 10), (ascii "exp", AttrVal.int 7),
          (ascii "bag", AttrVal.map (some 1))]
      else if a = 1 then
        [(ascii "gold", AttrVal.int 5), (ascii "pouch", AttrVal.map (some 2))]
      else if a = 2 then [(ascii "gem", AttrVal.int 1)]
      else [],
    nextAddr := 3 }

/-- The attributes `{a: m, b: m, inner: i, none: nil}` where `m` is one map
object (address 1) stored under two keys, `i` is a `map[interface{}]interface{}`
with the entry `gold: 5`, and `none` holds a nil `map[string]interface{}`. -/
def sharedWorld : World :=
  { newWorld with
    maps := fun a =>
      if a = 0 then
        [(ascii "a", AttrVal.map (some 1)), (ascii "b", AttrVal.map (some 1)),
          (ascii "inner", AttrVal.imap [(AttrVal.str (ascii "gold"), AttrVal.int 5)]),
          (ascii "none", AttrVal.map none)]
      else [],
    nextAddr := 2 }

end test_client

/-! ## `consts.go` -/

namespace time

/-- The `time.Duration` unit: a count of nanoseconds. -/
def Nanosecond : Int := 1

/-- The constant `time.Microsecond`. -/
def Microsecond : Int := 1000 * Nanosecond

/-- The constant `time.Millisecond`. -/
def Millisecond : Int := 1000 * Microsecond

/-- The constant `time.Second`. -/
def Second : Int := 1000 * Millisecond

end time

namespace consts

def DISPATCHER_CLIENT_PROXY_WRITE_BUFFER_SIZE : Int := 1024 * 1024 * 2
def DISPATCHER_CLIENT_PROXY_READ_BUFFER_SIZE : Int := 1024 * 1024 * 2
def DISPATCHER_CLIENT_PROXY_BUFFERED_DELAY : Int := 10 * time.Millisecond
def GAME_SERVICE_PACKET_QUEUE_SIZE : Int := 10000
def SERVER_TICK_INTERVAL : Int := time.Millisecond * 10
def DISPATCHER_CLIENT_WRITE_BUFFER_SIZE : Int := 1024 * 1024 * 2
def DISPATCHER_CLIENT_READ_BUFFER_SIZE : Int := 1024 * 1024 * 2
def DISPATCHER_CLIENT_BUFFERED_DELAY : Int := 10 * time.Millisecond
def DISPATCHER_MIGRATE_TIMEOUT : Int := time.Second * 60
def ENTER_SPACE_REQUEST_TIMEOUT : Int := DISPATCHER_MIGRATE_TIMEOUT + time.Second * 5

end consts

/-! ## Properties of Go maps -/

namespace GoMap

variable {κ : Type} {α : Type} [DecidableEq κ]

theorem del_cons (k₀ : κ) (v : α) (rest : GoMap κ α) (k : κ) :
    del ((k₀, v) :: rest) k = if k₀ = k then del rest k else (k₀, v) :: del rest k := by
  by_cases h : k₀ = k <;> simp [del, List.filter_cons, h]

theorem get_cons (k₀ : κ) (v : α) (rest : GoMap κ α) (k : κ) :
    get ((k₀, v) :: rest) k = if k₀ = k then some v else get rest k := rfl

theorem get_del_self (m : GoMap κ α) (k : κ) : (m.del k).get k = none := by
  induction m with
  | nil => rfl
  | cons kv rest ih =>
    obtain ⟨k₀, v⟩ := kv
    rw [del_cons]
    by_cases h : k₀ = k
    · rw [if_pos h]; exact ih
    · rw [if_neg h, get_cons, if_neg h]; exact ih

theorem get_del_ne (m : GoMap κ α) {k k' : κ} (hne : k ≠ k') :
    (m.del k).get k' = m.get k' := by
  induction m with
  | nil => rfl
  | cons kv rest ih =>
    obtain ⟨k₀, v⟩ := kv
    rw [del_cons, get_cons]
    by_cases h : k₀ = k
    · have h' : ¬ k₀ = k' := fun e => hne (h ▸ e)
      rw [if_pos h, if_neg h']; exact ih
    · rw [if_neg h, get_cons, ih]

theorem get_set_self (m : GoMap κ α) (k : κ) (v : α) : (m.set k v).get k = some v := by
  simp [set, get]

theorem get_set_ne (m : GoMap κ α) {k k' : κ} (v : α) (hne : k ≠ k') :
    (m.set k v).get k' = m.get k' := by
  unfold set
  rw [get_cons, if_neg hne, get_del_ne m hne]

end GoMap

/-! ## Properties of the Redis backend -/

namespace kvdbredis

theorem roundTrip_noFaults (c : RedisConn) (h : c.NoFaults) :
    c.roundTrip.1 = none ∧ c.roundTrip.2.data = c.data ∧ c.roundTrip.2.NoFaults := by
  unfold RedisConn.roundTrip
  cases hf : c.faults with
  | nil => exact ⟨rfl, rfl, h⟩
  | cons f fs =>
    have hmem : ∀ g ∈ f :: fs, g = none := hf ▸ h
    refine ⟨hmem f (List.mem_cons_self f fs), rfl, ?_⟩
    intro g hg
    exact hmem g (List.mem_cons_of_mem f hg)

theorem Get_of_roundTrip (db : redisKVDB) (key : GoString) (h : db.c.roundTrip.1 = none) :
    db.Get key = ((db.c.roundTrip.2.data.get (keyPrefix ++ key) |>.getD [], none),
      { db with c := db.c.roundTrip.2 }) := by
  unfold redisKVDB.Get RedisConn.DoGET
  rcases hr : db.c.roundTrip with ⟨e, c'⟩
  rw [hr] at h
  simp only at h
  subst h
  cases hg : c'.data.get (keyPrefix ++ key) <;> simp [hg]

theorem Get_noFaults (db : redisKVDB) (key : GoString) (h : db.c.NoFaults) :
    (db.Get key).1 = (db.valueOf key, none) ∧ (db.Get key).2.c.data = db.c.data ∧
      (db.Get key).2.c.NoFaults := by
  obtain ⟨h1, h2, h3⟩ := roundTrip_noFaults db.c h
  rw [Get_of_roundTrip db key h1]
  exact ⟨by simp [redisKVDB.valueOf, h2], h2, h3⟩

theorem ascend_collect (b e : GoString) (l : List GoString) (hs : l.Sorted (· < ·))
    (acc : List GoString) :
    ascend b e (fun (keys : List GoString) it => (keys ++ [it], true)) l acc
      = acc ++ l.filter (fun k => decide (b ≤ k ∧ k < e)) := by
  induction l generalizing acc with
  | nil => simp [ascend]
  | cons x xs ih =>
    have hxs : xs.Sorted (· < ·) := hs.of_cons
    have hx : ∀ z ∈ xs, x < z := fun z hz => List.rel_of_sorted_cons hs z hz
    unfold ascend
    by_cases h1 : x < b
    · have : ¬ (b ≤ x ∧ x < e) := fun h => absurd h1 (not_lt.mpr h.1)
      simp only [h1, if_true, List.filter_cons, this, decide_False]
      simpa using ih hxs acc
    · by_cases h2 : x < e
      · have : b ≤ x ∧ x < e := ⟨not_lt.mp h1, h2⟩
        simp only [h1, h2, if_false, not_true_eq_false, List.filter_cons, this, decide_True,
          if_true]
        rw [ih hxs (acc ++ [x])]
        simp
      · have hnone : (x :: xs).filter (fun k => decide (b ≤ k ∧ k < e)) = [] := by
          rw [List.filter_eq_nil_iff]
          intro z hz
          have hxz : x ≤ z := by
            rcases List.mem_cons.mp hz with rfl | hz
            · exact le_refl _
            · exact le_of_lt (hx z hz)
          have : ¬ z < e := fun hze => h2 (lt_of_le_of_lt hxz hze)
          simp [this]
        rw [hnone]
        simp [h1, h2]

theorem Find_leftKeys (db : redisKVDB) (beginKey endKey : GoString) :
    (db.Find beginKey endKey).1.leftKeys
      = db.keyTree.items.filter (fun k => decide (beginKey ≤ k ∧ k < endKey)) := by
  simp [redisKVDB.Find, BTree.AscendRange, ascend_collect _ _ _ db.keyTree.sorted]

theorem nextN_noFaults (n : Nat) (keys : List GoString) (db : redisKVDB)
    (h : db.c.NoFaults) :
    nextN n ⟨keys⟩ db
      = (keys.take n).map (fun k => ((⟨k, db.valueOf k⟩ : KVItem), (none : Option GoError)))
        ++ List.replicate (n - keys.length) ((⟨[], []⟩ : KVItem), some GoError.EOF) := by
  induction n generalizing keys db with
  | zero => simp [nextN]
  | succ n ih =>
    cases keys with
    | nil =>
      have := ih [] db h
      simp only [nextN, redisKVDBIterator.Next]
      rw [this]
      simp [List.replicate_succ]
    | cons key rest =>
      obtain ⟨g1, g2, g3⟩ := Get_noFaults db key h
      simp only [nextN, redisKVDBIterator.Next]
      rcases hg : db.Get key with ⟨⟨val, err⟩, db'⟩
      rw [hg] at g1 g2 g3
      simp only [Prod.mk.injEq] at g1
      obtain ⟨rfl, rfl⟩ := g1
      simp only at g2 g3 ⊢
      rw [ih rest db' g3]
      have hv : ∀ k, db'.valueOf k = db.valueOf k := fun k => by
        simp [redisKVDB.valueOf, g2]
      simp [hv]

theorem Put_ok_keyTree (db db1 : redisKVDB) (key val : GoString)
    (h : db.Put key val = Except.ok (none, db1)) :
    db1.keyTree = db.keyTree ∧ db.c.roundTrip.1 = none ∧
      db1.c = { db.c.roundTrip.2 with data := db.c.roundTrip.2.data.set (keyPrefix ++ key) val } := by
  unfold redisKVDB.Put RedisConn.DoSET at h
  rcases hr : db.c.roundTrip with ⟨e, c'⟩
  rw [hr] at h
  cases e with
  | some err =>
    simp only at h
    split at h <;> simp at h
  | none =>
    simp only [Except.ok.injEq, Prod.mk.injEq, true_and] at h
    subst h
    exact ⟨rfl, rfl, rfl⟩

/-- C1, evaluated on the code: on a freshly opened empty database `Put("k","v")`
succeeds (it returns a nil error and the server stores the value), yet the key
index does not hold `k` afterwards, `Find("a","z")` has no key to yield and its
first `Next` is `io.EOF`.  The same `Put` indexes `k` when the `SET` round trip
fails with `io.EOF`. -/
theorem Put_success_leaves_key_unindexed :
    (∃ db, emptyDB.Put (ascii "k") (ascii "v") = Except.ok (none, db) ∧
      db.c.data.get (keyPrefix ++ ascii "k") = some (ascii "v") ∧
      db.keyTree.Has (ascii "k") = false ∧
      (db.Find (ascii "a") (ascii "z")).1.leftKeys = [] ∧
      ((db.Find (ascii "a") (ascii "z")).1.Next db).1 = (⟨[], []⟩, some GoError.EOF)) ∧
    (∃ db, (⟨⟨[], [some GoError.EOF]⟩, BTree.New⟩ : redisKVDB).Put (ascii "k") (ascii "v")
        = Except.ok (some GoError.EOF, db) ∧
      db.keyTree.Has (ascii "k") = true ∧
      (db.Find (ascii "a") (ascii "z")).1.leftKeys = [ascii "k"]) :=
  ⟨⟨_, rfl, by decide, by decide, by decide, by decide⟩, ⟨_, rfl, by decide, by decide⟩⟩

/-- C2: `Find(beginKey, endKey)` returns a nil error and an iterator for which
there is a list `keys`, strictly ascending and so without repetition, holding
exactly the index keys `k` with `beginKey ≤ k < endKey`, such that, when no
round trip fails, the first `n` calls of `Next` return the first `n` keys of
`keys` in order, each with the value `Get` reads for it and a nil error, and
every call after the last key returns `io.EOF`. -/
theorem Find_iterates_range (db : redisKVDB) (beginKey endKey : GoString)
    (hget : db.c.NoFaults) :
    (db.Find beginKey endKey).2 = none ∧
    ∃ keys : List GoString,
      keys.Sorted (· < ·) ∧ keys.Nodup ∧
      (∀ k, k ∈ keys ↔ db.keyTree.Has k = true ∧ beginKey ≤ k ∧ k < endKey) ∧
      ∀ n, nextN n (db.Find beginKey endKey).1 db
        = (keys.take n).map (fun k => ((⟨k, db.valueOf k⟩ : KVItem), (none : Option GoError)))
          ++ List.replicate (n - keys.length) ((⟨[], []⟩ : KVItem), some GoError.EOF) := by
  refine ⟨rfl, db.keyTree.items.filter (fun k => decide (beginKey ≤ k ∧ k < endKey)), ?_, ?_,
    ?_, ?_⟩
  · exact db.keyTree.sorted.filter _
  · exact (db.keyTree.sorted.filter _).nodup
  · intro k
    simp [BTree.Has, List.mem_filter]
  · intro n
    have h := nextN_noFaults n (db.Find beginKey endKey).1.leftKeys db hget
    rw [Find_leftKeys] at h
    have hit : (db.Find beginKey endKey).1
        = ⟨db.keyTree.items.filter (fun k => decide (beginKey ≤ k ∧ k < endKey))⟩ := by
      rw [← Find_leftKeys]
    rw [hit]
    exact h

/-- C2 at `sampleDB`, whose index holds `b`, `k`, `zz`: the range from `a` to `z`. -/
theorem Find_iterates_range_witness :
    sampleDB.c.NoFaults ∧
    ((sampleDB.Find (ascii "a") (ascii "z")).2 = none ∧
    ∃ keys : List GoString,
      keys.Sorted (· < ·) ∧ keys.Nodup ∧
      (∀ k, k ∈ keys ↔ sampleDB.keyTree.Has k = true ∧ ascii "a" ≤ k ∧ k < ascii "z") ∧
      ∀ n, nextN n (sampleDB.Find (ascii "a") (ascii "z")).1 sampleDB
        = (keys.take n).map
            (fun k => ((⟨k, sampleDB.valueOf k⟩ : KVItem), (none : Option GoError)))
          ++ List.replicate (n - keys.length) ((⟨[], []⟩ : KVItem), some GoError.EOF)) :=
  ⟨fun _ hf => absurd hf (List.not_mem_nil _),
    Find_iterates_range sampleDB (ascii "a") (ascii "z")
      (fun _ hf => absurd hf (List.not_mem_nil _))⟩

/-- C3: with the server keyspace as the map behind the connection, a `Put(k, v)`
that returns a nil error leaves `v` stored under `keyPrefix + k`, and a `Get(k)`
whose round trip does not fail then returns `(v, nil)`; a `Get(k)` whose round
trip does not fail on a keyspace with nothing stored under `keyPrefix + k`
returns the empty string and a nil error. -/
theorem Put_then_Get (db : redisKVDB) (k v : GoString) :
    (∀ db1, db.Put k v = Except.ok (none, db1) →
      db1.c.data.get (keyPrefix ++ k) = some v ∧
      (db1.c.roundTrip.1 = none → (db1.Get k).1 = (v, none))) ∧
    (db.c.data.get (keyPrefix ++ k) = none → db.c.roundTrip.1 = none →
      (db.Get k).1 = ([], none)) := by
  constructor
  · intro db1 hput
    obtain ⟨_, _, hc⟩ := Put_ok_keyTree db db1 k v hput
    have hdata : db1.c.data.get (keyPrefix ++ k) = some v := by
      rw [hc]; exact GoMap.get_set_self _ _ _
    refine ⟨hdata, fun hrt => ?_⟩
    rw [Get_of_roundTrip db1 k hrt]
    have hd : db1.c.roundTrip.2.data = db1.c.data := by
      unfold RedisConn.roundTrip
      cases db1.c.faults <;> rfl
    simp [hd, hdata]
  · intro hnone hrt
    rw [Get_of_roundTrip db k hrt]
    have hd : db.c.roundTrip.2.data = db.c.data := by
      unfold RedisConn.roundTrip
      cases db.c.faults <;> rfl
    simp [hd, hnone]

/-- C3 at the scenario `Put("k","v")` then `Get("k")` on a fresh database, and
`Get("k")` on the fresh database itself. -/
theorem Put_then_Get_witness :
    emptyDB.Put (ascii "k") (ascii "v")
        = Except.ok (none, ⟨⟨[(ascii "_KV_k", ascii "v")], []⟩, BTree.New⟩) ∧
      ((⟨⟨[(ascii "_KV_k", ascii "v")], []⟩, BTree.New⟩ : redisKVDB).Get (ascii "k")).1
        = (ascii "v", none) ∧
      (emptyDB.Get (ascii "k")).1 = ([], none) :=
  ⟨rfl,
    ((Put_then_Get emptyDB (ascii "k") (ascii "v")).1 _ rfl).2 rfl,
    (Put_then_Get emptyDB (ascii "k") (ascii "v")).2 rfl rfl⟩

end kvdbredis

/-! ## Properties of the tunable constants -/

namespace consts

/-- C8: the tunable constants have their documented defaults as exact integers
(durations in nanoseconds): the enter-space timeout is the migrate timeout plus
5 s, that is 65 s, the migrate timeout is 60 s, the four dispatcher buffer sizes
are 2 MiB = 2097152 bytes, the two coalescing delays and the server tick are
10 ms, and the packet queue holds 10000 packets. -/
theorem tunable_defaults :
    ENTER_SPACE_REQUEST_TIMEOUT = DISPATCHER_MIGRATE_TIMEOUT + 5 * time.Second ∧
    ENTER_SPACE_REQUEST_TIMEOUT = 65 * time.Second ∧
    ENTER_SPACE_REQUEST_TIMEOUT = 65000000000 ∧
    DISPATCHER_MIGRATE_TIMEOUT = 60 * time.Second ∧
    DISPATCHER_MIGRATE_TIMEOUT = 60000000000 ∧
    DISPATCHER_CLIENT_PROXY_WRITE_BUFFER_SIZE = 2097152 ∧
    DISPATCHER_CLIENT_PROXY_READ_BUFFER_SIZE = 2097152 ∧
    DISPATCHER_CLIENT_WRITE_BUFFER_SIZE = 2097152 ∧
    DISPATCHER_CLIENT_READ_BUFFER_SIZE = 2097152 ∧
    (2097152 : Int) = 2 * 2 ^ 20 ∧
    DISPATCHER_CLIENT_PROXY_BUFFERED_DELAY = 10 * time.Millisecond ∧
    DISPATCHER_CLIENT_BUFFERED_DELAY = 10 * time.Millisecond ∧
    DISPATCHER_CLIENT_BUFFERED_DELAY = 10000000 ∧
    GAME_SERVICE_PACKET_QUEUE_SIZE = 10000 ∧
    SERVER_TICK_INTERVAL = 10 * time.Millisecond ∧
    SERVER_TICK_INTERVAL = 10000000 := by
  decide

end consts

/-! ## Properties of the client entity -/

namespace test_client

theorem spaceKindLoop_stuck (kind : Int) (fuel iterations : Nat) :
    spaceKindLoop kind kind kind fuel kind iterations = none := by
  induction fuel generalizing iterations with
  | zero => rfl
  | succ fuel ih =>
    unfold spaceKindLoop
    simp only [if_true]
    exact ih (iterations + 1)

theorem spaceKindLoop_exit (lo hi cur : Int) (fuel : Nat) (spaceKind : Int) (iterations : Nat)
    (h : spaceKind ≠ cur) :
    spaceKindLoop lo hi cur (fuel + 1) spaceKind iterations = some (spaceKind, iterations) := by
  rw [spaceKindLoop, if_neg h]

theorem spaceKindLoop_exit_max (lo hi cur : Int) (fuel : Nat) (spaceKind : Int)
    (iterations : Nat) (h1 : spaceKind = cur) (h2 : spaceKind = hi) (h3 : lo ≠ cur) :
    spaceKindLoop lo hi cur (fuel + 2) spaceKind iterations = some (lo, iterations + 1) := by
  rw [spaceKindLoop, if_pos h1, if_pos h2, spaceKindLoop_exit _ _ _ _ _ _ h3]

theorem spaceKindLoop_exit_succ (lo hi cur : Int) (fuel : Nat) (spaceKind : Int)
    (iterations : Nat) (h1 : spaceKind = cur) (h2 : spaceKind ≠ hi)
    (h3 : spaceKind + 1 ≠ cur) :
    spaceKindLoop lo hi cur (fuel + 2) spaceKind iterations
      = some (spaceKind + 1, iterations + 1) := by
  rw [spaceKindLoop, if_pos h1, if_neg h2, spaceKindLoop_exit _ _ _ _ _ _ h3]

/-- C10: with `SPACE_KIND_MIN < SPACE_KIND_MAX`, a draw `r` in
`[0, SPACE_KIND_MAX - SPACE_KIND_MIN]` and any current space kind (0 without a
current space), `DoEnterRandomSpace` leaves its loop after at most one
iteration, whatever fuel of at least two condition checks it is given, and the
kind passed to `EnterSpace` lies in `[SPACE_KIND_MIN, SPACE_KIND_MAX]` and is
not the current kind; with `SPACE_KIND_MIN = SPACE_KIND_MAX` equal to the
current kind the loop is still running after any number of condition checks. -/
theorem DoEnterRandomSpace_loop (SPACE_KIND_MIN SPACE_KIND_MAX r : Int)
    (currentSpace : Option Int) :
    (SPACE_KIND_MIN < SPACE_KIND_MAX → 0 ≤ r → r ≤ SPACE_KIND_MAX - SPACE_KIND_MIN →
      ∃ spaceKind iterations,
        (∀ fuel, 2 ≤ fuel →
          DoEnterRandomSpace SPACE_KIND_MIN SPACE_KIND_MAX currentSpace r fuel
            = some (spaceKind, iterations)) ∧
        iterations ≤ 1 ∧ SPACE_KIND_MIN ≤ spaceKind ∧ spaceKind ≤ SPACE_KIND_MAX ∧
        spaceKind ≠ currentSpace.getD 0) ∧
    (SPACE_KIND_MIN = SPACE_KIND_MAX → 0 ≤ r → r ≤ SPACE_KIND_MAX - SPACE_KIND_MIN →
      currentSpace.getD 0 = SPACE_KIND_MAX →
      ∀ fuel, DoEnterRandomSpace SPACE_KIND_MIN SPACE_KIND_MAX currentSpace r fuel = none) := by
  have hcur : ∀ fuel, DoEnterRandomSpace SPACE_KIND_MIN SPACE_KIND_MAX currentSpace r fuel
      = spaceKindLoop SPACE_KIND_MIN SPACE_KIND_MAX (currentSpace.getD 0) fuel
          (SPACE_KIND_MIN + r) 0 := by
    intro fuel
    cases currentSpace <;> rfl
  generalize currentSpace.getD 0 = cur at hcur ⊢
  constructor
  · intro hlt h0 hr
    by_cases h1 : SPACE_KIND_MIN + r = cur
    · by_cases h2 : SPACE_KIND_MIN + r = SPACE_KIND_MAX
      · refine ⟨SPACE_KIND_MIN, 1, ?_, le_refl _, le_refl _, le_of_lt hlt, by omega⟩
        intro fuel hfuel
        obtain ⟨f, rfl⟩ : ∃ f, fuel = f + 2 := ⟨fuel - 2, by omega⟩
        rw [hcur, spaceKindLoop_exit_max _ _ _ _ _ _ h1 h2 (by omega)]
      · refine ⟨SPACE_KIND_MIN + r + 1, 1, ?_, le_refl _, by omega, by omega, by omega⟩
        intro fuel hfuel
        obtain ⟨f, rfl⟩ : ∃ f, fuel = f + 2 := ⟨fuel - 2, by omega⟩
        rw [hcur, spaceKindLoop_exit_succ _ _ _ _ _ _ h1 h2 (by omega)]
    · refine ⟨SPACE_KIND_MIN + r, 0, ?_, Nat.zero_le _, by omega, by omega, h1⟩
      intro fuel hfuel
      obtain ⟨f, rfl⟩ : ∃ f, fuel = f + 2 := ⟨fuel - 2, by omega⟩
      rw [hcur, spaceKindLoop_exit _ _ _ _ _ _ h1]
  · intro heq h0 hr hc fuel
    have hr0 : r = 0 := by omega
    subst hr0
    subst heq
    subst hc
    rw [hcur, add_zero]
    exact spaceKindLoop_stuck _ fuel 0

/-- C10 at `SPACE_KIND_MIN = 1`, `SPACE_KIND_MAX = 100`: the draw 99 in space
kind 100 wraps to kind 1 in one iteration; and at `SPACE_KIND_MIN =
SPACE_KIND_MAX = 3` in space kind 3 the loop never ends. -/
theorem DoEnterRandomSpace_loop_witness :
    (∃ spaceKind iterations,
      (∀ fuel, 2 ≤ fuel →
        DoEnterRandomSpace 1 100 (some 100) 99 fuel = some (spaceKind, iterations)) ∧
      iterations ≤ 1 ∧ 1 ≤ spaceKind ∧ spaceKind ≤ 100 ∧
      spaceKind ≠ (some (100 : Int)).getD 0) ∧
    (∀ fuel, DoEnterRandomSpace 3 3 (some 3) 0 fuel = none) :=
  ⟨(DoEnterRandomSpace_loop 1 100 99 (some 100)).1 (by decide) (by decide) (by decide),
    (DoEnterRandomSpace_loop 3 3 0 (some 3)).2 rfl (by decide) (by decide) rfl⟩

/-! ### Timers -/

theorem timerLive_del_self (e : ClientEntity) (t : Timer) :
    ({ e with timers := e.timers.del t } : ClientEntity).timerLive t = false := by
  simp [ClientEntity.timerLive, GoMap.get_del_self]

theorem timerLive_del_ne (e : ClientEntity) {t t' : Timer} (h : t' ≠ t) :
    ({ e with timers := e.timers.del t' } : ClientEntity).timerLive t = e.timerLive t := by
  simp [ClientEntity.timerLive, GoMap.get_del_ne _ h]

theorem timerLive_set_ne (e : ClientEntity) {t t' : Timer} (b : Bool) (h : t' ≠ t) :
    ({ e with timers := e.timers.set t' b } : ClientEntity).timerLive t = e.timerLive t := by
  simp [ClientEntity.timerLive, GoMap.get_set_ne _ b h]

theorem closures_step (w : World) (ev : Event) (t : Timer) (kind : TimerKind)
    (h : w.closures.get? t = some kind) : (step w ev).closures.get? t = some kind := by
  have hlt : t < w.closures.length := by
    rcases Nat.lt_or_ge t w.closures.length with hlt | hge
    · exact hlt
    · rw [List.get?_eq_none.mpr hge] at h; cases h
  cases ev with
  | AddCallback =>
    simp only [step, AddCallback]
    rw [List.get?_eq_getElem?, List.getElem?_append_left hlt, ← List.get?_eq_getElem?]; exact h
  | AddTimer =>
    simp only [step, AddTimer]
    rw [List.get?_eq_getElem?, List.getElem?_append_left hlt, ← List.get?_eq_getElem?]; exact h
  | CancelTimer t' => exact h
  | Destroy =>
    simp only [step, Destroy]
    split <;> exact h
  | Fire t' =>
    simp only [step, Fire]
    split
    · simp only [fireCallback]
      split
      · exact h
      · split <;> exact h
    · simp only [fireTimer]
      split
      · exact h
      · split <;> exact h
    · exact h

theorem step_dead (w : World) (ev : Event) (t : Timer) (hlt : t < w.closures.length)
    (hdead : w.e.timerLive t = false) :
    (step w ev).e.timerLive t = false ∧ (step w ev).ran.count t = w.ran.count t := by
  cases ev with
  | AddCallback =>
    simp only [step, AddCallback]
    exact ⟨by rw [timerLive_set_ne _ _ (Nat.ne_of_gt hlt)]; exact hdead, trivial⟩
  | AddTimer =>
    simp only [step, AddTimer]
    exact ⟨by rw [timerLive_set_ne _ _ (Nat.ne_of_gt hlt)]; exact hdead, trivial⟩
  | CancelTimer t' =>
    simp only [step, CancelTimer]
    by_cases h : t' = t
    · subst h; exact ⟨timerLive_del_self _ _, trivial⟩
    · exact ⟨by rw [timerLive_del_ne _ h]; exact hdead, trivial⟩
  | Destroy =>
    simp only [step, Destroy]
    split
    · exact ⟨hdead, rfl⟩
    · exact ⟨hdead, rfl⟩
  | Fire t' =>
    by_cases h : t' = t
    · subst h
      simp only [step, Fire]
      split
      · simp only [fireCallback, hdead]
        exact ⟨hdead, rfl⟩
      · simp only [fireTimer, hdead]
        exact ⟨hdead, rfl⟩
      · exact ⟨hdead, rfl⟩
    · have hc : ∀ l : List Timer, (l ++ [t']).count t = l.count t := by
        intro l
        simp [List.count_append, List.count_singleton, h]
      simp only [step, Fire]
      split
      · simp only [fireCallback]
        split
        · exact ⟨hdead, rfl⟩
        · split
          · exact ⟨by rw [timerLive_del_ne _ h]; exact hdead, rfl⟩
          · exact ⟨by rw [timerLive_del_ne _ h]; exact hdead, hc _⟩
      · simp only [fireTimer]
        split
        · exact ⟨hdead, rfl⟩
        · split
          · exact ⟨by rw [timerLive_del_ne _ h]; exact hdead, rfl⟩
          · exact ⟨hdead, hc _⟩
      · exact ⟨hdead, rfl⟩

theorem closures_length_step (w : World) (ev : Event) :
    w.closures.length ≤ (step w ev).closures.length := by
  cases ev with
  | AddCallback => simp [step, AddCallback]
  | AddTimer => simp [step, AddTimer]
  | CancelTimer t' => exact le_refl _
  | Destroy =>
    simp only [step, Destroy]
    split <;> exact le_refl _
  | Fire t' =>
    simp only [step, Fire]
    split
    · simp only [fireCallback]
      split
      · exact le_refl _
      · split <;> exact le_refl _
    · simp only [fireTimer]
      split
      · exact le_refl _
      · split <;> exact le_refl _
    · exact le_refl _

theorem run_dead (evs : List Event) (w : World) (t : Timer) (hlt : t < w.closures.length)
    (hdead : w.e.timerLive t = false) :
    (run w evs).e.timerLive t = false ∧ (run w evs).ran.count t = w.ran.count t := by
  induction evs generalizing w with
  | nil => exact ⟨hdead, rfl⟩
  | cons ev evs ih =>
    obtain ⟨h1, h2⟩ := step_dead w ev t hlt hdead
    have := ih (step w ev) (lt_of_lt_of_le hlt (closures_length_step w ev)) h1
    simp only [run, List.foldl_cons] at this ⊢
    exact ⟨this.1, this.2.trans h2⟩

theorem lt_of_closure (w : World) (t : Timer) (kind : TimerKind)
    (h : w.closures.get? t = some kind) : t < w.closures.length := by
  rcases Nat.lt_or_ge t w.closures.length with hlt | hge
  · exact hlt
  · rw [List.get?_eq_none.mpr hge] at h; cases h

theorem Fire_ran (w : World) (t : Timer) (kind : TimerKind)
    (hk : w.closures.get? t = some kind) :
    (Fire w t).ran = if w.e.timerLive t && !w.e.destroyed then w.ran ++ [t] else w.ran := by
  unfold Fire
  rw [hk]
  cases kind <;> cases hl : w.e.timerLive t <;> cases hd : w.e.destroyed <;>
    simp [fireCallback, fireTimer, hl, hd]

theorem fireCallback_dead (w : World) (t : Timer) :
    (fireCallback w t).e.timerLive t = false := by
  unfold fireCallback
  cases hl : w.e.timerLive t
  · simpa using hl
  · cases hd : w.e.destroyed <;> simp [hd, ClientEntity.timerLive, GoMap.get_del_self]

theorem step_count (w : World) (ev : Event) (t : Timer)
    (hk : w.closures.get? t = some TimerKind.callback) :
    (step w ev).ran.count t = w.ran.count t ∨
      ((step w ev).ran.count t = w.ran.count t + 1 ∧ (step w ev).e.timerLive t = false) := by
  by_cases hev : ev = Event.Fire t
  · subst hev
    have hr := Fire_ran w t _ hk
    have hd : (Fire w t).e.timerLive t = false := by
      unfold Fire; rw [hk]; exact fireCallback_dead w t
    simp only [step]
    by_cases hc : (w.e.timerLive t && !w.e.destroyed) = true
    · right
      rw [hr, if_pos hc]
      exact ⟨by simp [List.count_append], hd⟩
    · left
      rw [hr, if_neg hc]
  · left
    cases ev with
    | AddCallback => rfl
    | AddTimer => rfl
    | CancelTimer t' => rfl
    | Destroy =>
      simp only [step, Destroy]
      split <;> rfl
    | Fire t' =>
      have h : t' ≠ t := fun e => hev (e ▸ rfl)
      have hc : ∀ l : List Timer, (l ++ [t']).count t = l.count t := by
        intro l
        simp [List.count_append, List.count_singleton, h]
      simp only [step, Fire]
      split
      · simp only [fireCallback]
        split
        · rfl
        · split
          · rfl
          · exact hc _
      · simp only [fireTimer]
        split
        · rfl
        · split
          · rfl
          · exact hc _
      · rfl

theorem run_count_le (evs : List Event) (w : World) (t : Timer)
    (hk : w.closures.get? t = some TimerKind.callback) :
    (run w evs).ran.count t ≤ w.ran.count t + 1 := by
  induction evs generalizing w with
  | nil => exact Nat.le_succ _
  | cons ev evs ih =>
    have hk' := closures_step w ev t _ hk
    have hrun : run w (ev :: evs) = run (step w ev) evs := rfl
    rw [hrun]
    rcases step_count w ev t hk with h | ⟨h, hd⟩
    · have := ih (step w ev) hk'
      omega
    · have := (run_dead evs (step w ev) t (lt_of_closure _ _ _ hk') hd).2
      omega

/-- C6: for a timer `t` that `AddCallback` or `AddTimer` created, `CancelTimer(t)`
takes `t` out of the entity's live timer set and keeps every other entry of the
set; and after any sequence of later events (timers added, cancelled and fired,
fires of `t` itself included, the entity destroyed) `t` is still not live and the
user callback of `t` has run no more often than before the cancel, so not at
all when it had not fired before. -/
theorem CancelTimer_silences (w : World) (t : Timer) (evs : List Event)
    (ht : t < w.closures.length) :
    (CancelTimer w t).e.timers.get t = none ∧
    (CancelTimer w t).e.timerLive t = false ∧
    (∀ t', t' ≠ t → (CancelTimer w t).e.timers.get t' = w.e.timers.get t') ∧
    (run (CancelTimer w t) evs).e.timerLive t = false ∧
    (run (CancelTimer w t) evs).ran.count t = w.ran.count t ∧
    (w.ran.count t = 0 → (run (CancelTimer w t) evs).ran.count t = 0) := by
  have hdead : (CancelTimer w t).e.timerLive t = false := timerLive_del_self _ _
  obtain ⟨h1, h2⟩ := run_dead evs (CancelTimer w t) t ht hdead
  refine ⟨GoMap.get_del_self _ _, hdead, ?_, h1, h2, fun h0 => ?_⟩
  · intro t' hne
    exact GoMap.get_del_ne _ (Ne.symm hne)
  · rw [h2]; exact h0

/-- C6 on a fresh entity: a callback timer and a repeating timer are added, the
callback timer 0 is cancelled and then fired twice around a fire of timer 1. -/
theorem CancelTimer_silences_witness :
    (CancelTimer (run newWorld [Event.AddCallback, Event.AddTimer]) 0).e.timers.get 0 = none ∧
    (run (CancelTimer (run newWorld [Event.AddCallback, Event.AddTimer]) 0)
      [Event.Fire 0, Event.Fire 1, Event.Fire 0]).ran = [1] ∧
    (run (CancelTimer (run newWorld [Event.AddCallback, Event.AddTimer]) 0)
      [Event.Fire 0, Event.Fire 1, Event.Fire 0]).ran.count 0 = 0 :=
  ⟨(CancelTimer_silences (run newWorld [Event.AddCallback, Event.AddTimer]) 0
      [Event.Fire 0, Event.Fire 1, Event.Fire 0] (by decide)).1,
    by decide,
    (CancelTimer_silences (run newWorld [Event.AddCallback, Event.AddTimer]) 0
      [Event.Fire 0, Event.Fire 1, Event.Fire 0] (by decide)).2.2.2.2.2 (by decide)⟩

/-- C7: when a timer `t` created by `AddCallback` or `AddTimer` fires, the user
callback runs exactly when `t` is in the live timer set and the entity is not
destroyed; the first live fire of an `AddCallback` timer takes it out of the
live set, and over any sequence of events its user callback runs at most once
more; a fire on a destroyed entity runs no callback and leaves `t` out of the
live set. -/
theorem Fire_runs_iff_live (w : World) (t : Timer) (kind : TimerKind)
    (hk : w.closures.get? t = some kind) :
    ((Fire w t).ran = if w.e.timerLive t && !w.e.destroyed then w.ran ++ [t] else w.ran) ∧
    (kind = TimerKind.callback → (Fire w t).e.timerLive t = false) ∧
    (kind = TimerKind.callback → ∀ evs, (run w evs).ran.count t ≤ w.ran.count t + 1) ∧
    (w.e.destroyed = true → (Fire w t).ran = w.ran ∧ (Fire w t).e.timerLive t = false) := by
  refine ⟨Fire_ran w t kind hk, ?_, ?_, ?_⟩
  · intro hkind
    subst hkind
    unfold Fire; rw [hk]; exact fireCallback_dead w t
  · intro hkind evs
    subst hkind
    exact run_count_le evs w t hk
  · intro hd
    refine ⟨by rw [Fire_ran w t kind hk]; simp [hd], ?_⟩
    unfold Fire; rw [hk]
    cases kind
    · exact fireCallback_dead w t
    · unfold fireTimer
      cases hl : w.e.timerLive t
      · simpa using hl
      · simp [hd, ClientEntity.timerLive, GoMap.get_del_self]

/-- C7 on a fresh entity with one `AddCallback` timer: its first fire runs the
callback, and three fires in a row run it once. -/
theorem Fire_runs_iff_live_witness :
    (Fire (AddCallback newWorld).2 0).ran = [0] ∧
    (run (AddCallback newWorld).2 [Event.Fire 0, Event.Fire 0, Event.Fire 0]).ran.count 0
      ≤ (AddCallback newWorld).2.ran.count 0 + 1 ∧
    (run (AddCallback newWorld).2 [Event.Fire 0, Event.Fire 0, Event.Fire 0]).ran = [0] :=
  ⟨(Fire_runs_iff_live (AddCallback newWorld).2 0 TimerKind.callback rfl).1,
    (Fire_runs_iff_live (AddCallback newWorld).2 0 TimerKind.callback rfl).2.2.1 rfl _,
    by decide⟩

/-! ### Attribute paths -/

theorem assertMap_eq_some (x : Option AttrVal) (ref : Option Addr) :
    assertMap x = some ref ↔ x = some (AttrVal.map ref) := by
  cases x with
  | none => simp [assertMap]
  | some v => cases v <;> simp [assertMap]

theorem assertMap_eq_none (x : Option AttrVal) :
    assertMap x = none ↔ ∀ ref, x ≠ some (AttrVal.map ref) := by
  cases x with
  | none => simp [assertMap]
  | some v => cases v <;> simp [assertMap]

theorem descend_nil (maps : Addr → ClientAttrs) (attr : Option Addr) :
    descend maps attr [] = some attr := by
  cases attr <;> rfl

theorem descend_cons (maps : Addr → ClientAttrs) (attr : Option Addr) (name : GoString)
    (rest : List GoString) :
    descend maps attr (name :: rest)
      = match assertMap (GoMap.get (deref maps attr) name) with
        | some ref => descend maps ref rest
        | none => none := by
  cases attr with
  | none => rfl
  | some o =>
    simp only [descend, deref]
    cases GoMap.get (maps o) name with
    | none => rfl
    | some v => cases v <;> rfl

theorem take_succ_reverse (path : List GoString) (i : Nat) (h : i < path.length) :
    (path.take (i + 1)).reverse = path[i] :: (path.take i).reverse := by
  rw [List.take_succ, List.reverse_append]
  simp [List.getElem?_eq_getElem h]

theorem findAttrLoop_eq (maps : Addr → ClientAttrs) (path : List GoString) (i : Nat)
    (attr : Option Addr) (hi : i ≤ path.length) :
    findAttrLoop maps path i attr = descend maps attr (path.take i).reverse := by
  induction i generalizing attr with
  | zero => simp [findAttrLoop, descend_nil]
  | succ i ih =>
    have hlt : i < path.length := hi
    rw [take_succ_reverse path i hlt, findAttrLoop, List.get?_eq_getElem?,
      List.getElem?_eq_getElem hlt, descend_cons]
    simp only
    cases assertMap (GoMap.get (deref maps attr) path[i]) with
    | none => rfl
    | some m => exact ih m (Nat.le_of_lt hlt)

theorem findAttrByPath_eq (w : World) (path : List GoString) :
    findAttrByPath w path = descend w.maps (some w.e.Attrs) path.reverse := by
  unfold findAttrByPath
  rw [findAttrLoop_eq w.maps path path.length _ (le_refl _), List.take_length]

theorem descend_eq_none (maps : Addr → ClientAttrs) (attr : Option Addr)
    (keys : List GoString) :
    descend maps attr keys = none ↔
      ∃ walked name rest ref, keys = walked ++ name :: rest ∧
        descend maps attr walked = some ref ∧
        ∀ ref', GoMap.get (deref maps ref) name ≠ some (AttrVal.map ref') := by
  induction keys generalizing attr with
  | nil =>
    constructor
    · intro h; simp [descend] at h
    · rintro ⟨walked, name, rest, ref, h, _⟩
      simp at h
  | cons n keys ih =>
    cases hm : assertMap (GoMap.get (deref maps attr) n) with
    | none =>
      have hd : descend maps attr (n :: keys) = none := by rw [descend_cons, hm]
      refine ⟨fun _ => ⟨[], n, keys, attr, rfl, descend_nil _ _, ?_⟩, fun _ => hd⟩
      exact (assertMap_eq_none _).mp hm
    | some m1 =>
      have hd : ∀ ks, descend maps attr (n :: ks) = descend maps m1 ks := by
        intro ks; rw [descend_cons, hm]
      rw [hd, ih m1]
      constructor
      · rintro ⟨walked, name, rest, ref, h1, h2, h3⟩
        exact ⟨n :: walked, name, rest, ref, by simp [h1], by rw [hd]; exact h2, h3⟩
      · rintro ⟨walked, name, rest, ref, h1, h2, h3⟩
        cases walked with
        | nil =>
          simp only [List.nil_append, List.cons.injEq] at h1
          rw [descend_nil, Option.some.injEq] at h2
          obtain ⟨rfl, rfl⟩ := h1
          subst h2
          exact absurd ((assertMap_eq_some _ _).mp hm) (h3 m1)
        | cons b walked =>
          simp only [List.cons_append, List.cons.injEq] at h1
          obtain ⟨rfl, h1⟩ := h1
          rw [hd] at h2
          exact ⟨walked, name, rest, ref, h1, h2, h3⟩

/-- C4 as stated fails: in `sharedWorld` the attribute `inner` exists and is a
nested mapping, a `map[interface{}]interface{}` with the entry `gold: 5`, yet
`findAttrByPath(["inner"])` panics instead of returning it. -/
theorem findAttrByPath_rejects_imap :
    GoMap.get (sharedWorld.maps sharedWorld.e.Attrs) (ascii "inner")
      = some (AttrVal.imap [(AttrVal.str (ascii "gold"), AttrVal.int 5)]) ∧
    findAttrByPath sharedWorld [ascii "inner"] = none :=
  ⟨rfl, rfl⟩

/-- C4, amended: `findAttrByPath(path)` returns the map reached from the attribute
root by descending through the keys of `path` in reversed order, the last
element of `path` first and its first element last, each key holding a
`map[string]interface{}`; for the empty path that is the root map itself; and it
fails (panics) exactly when the reversed path splits into keys already walked,
reaching a map, and a next key under which that map holds no
`map[string]interface{}`: the key is missing or holds something else, a
`map[interface{}]interface{}` included.  On `{bag: {gold: 5, pouch: {gem: 1}}}`
the path of `pouch` is `["pouch", "bag"]`, and `["bag", "pouch"]` panics. -/
theorem findAttrByPath_walks_reversed (w : World) (path : List GoString) :
    findAttrByPath w path = descend w.maps (some w.e.Attrs) path.reverse ∧
    findAttrByPath w [] = some (some w.e.Attrs) ∧
    (findAttrByPath w path = none ↔
      ∃ walked name rest ref, path.reverse = walked ++ name :: rest ∧
        descend w.maps (some w.e.Attrs) walked = some ref ∧
        ∀ ref', GoMap.get (deref w.maps ref) name ≠ some (AttrVal.map ref')) ∧
    findAttrByPath bagWorld [ascii "pouch", ascii "bag"] = some (some 2) ∧
    bagWorld.maps 2 = [(ascii "gem", AttrVal.int 1)] ∧
    findAttrByPath bagWorld [ascii "bag"] = some (some 1) ∧
    findAttrByPath bagWorld [ascii "bag", ascii "pouch"] = none := by
  refine ⟨findAttrByPath_eq w path, rfl, ?_, rfl, rfl, rfl, rfl⟩
  rw [findAttrByPath_eq, descend_eq_none]

/-! ### Attribute changes -/

theorem rootkey_eq (path : List GoString) (key : GoString) :
    rootkey path key = path.getLast?.getD key := by
  unfold rootkey
  by_cases h : path.length > 0
  · rw [dif_pos h, List.getLast?_eq_getElem?, List.getElem?_eq_getElem (by omega)]
    rfl
  · have : path = [] := List.length_eq_zero.mp (by omega)
    subst this
    rfl

theorem store_maps_self (w : World) (a : Addr) (m : ClientAttrs) :
    (w.store a m).maps a = m := by
  simp [World.store]

theorem store_maps_ne (w : World) {a b : Addr} (m : ClientAttrs) (h : b ≠ a) :
    (w.store a m).maps b = w.maps b := by
  simp [World.store, h]

theorem convertVal_not_imap (x : Ext) (w : World) (val : AttrVal)
    (h : ∀ im, val ≠ AttrVal.imap im) : convertVal x w val = some (val, w) := by
  cases val <;> first | rfl | exact absurd rfl (h _)

theorem convertVal_imap_some (x : Ext) (w : World) (im : List (AttrVal × AttrVal))
    (entries : ClientAttrs) (h : x.typeconvMapStringAnything im = some entries) :
    convertVal x w (AttrVal.imap im)
      = some (AttrVal.map (some w.nextAddr),
          { w.store w.nextAddr entries with nextAddr := w.nextAddr + 1 }) := by
  simp [convertVal, h]

theorem convertVal_imap_none (x : Ext) (w : World) (im : List (AttrVal × AttrVal))
    (h : x.typeconvMapStringAnything im = none) :
    convertVal x w (AttrVal.imap im) = none := by
  simp [convertVal, h]

theorem convertVal_frame (x : Ext) (w w1 : World) (val v : AttrVal)
    (h : convertVal x w val = some (v, w1)) :
    w1.e = w.e ∧ w1.invoked = w.invoked ∧ w1.warned = w.warned ∧
      (∀ b, b ≠ w.nextAddr → w1.maps b = w.maps b) := by
  cases val with
  | imap im =>
    cases hc : x.typeconvMapStringAnything im with
    | none => rw [convertVal_imap_none x w im hc] at h; cases h
    | some entries =>
      rw [convertVal_imap_some x w im entries hc] at h
      simp only [Option.some.injEq, Prod.mk.injEq] at h
      obtain ⟨_, rfl⟩ := h
      exact ⟨rfl, rfl, rfl, fun b hb => store_maps_ne w entries hb⟩
  | null | bool _ | int _ | str _ | map _ | list _ =>
    simp only [convertVal, Option.some.injEq, Prod.mk.injEq] at h
    obtain ⟨_, rfl⟩ := h
    exact ⟨rfl, rfl, rfl, fun _ _ => rfl⟩

theorem convertVal_isSome (x : Ext) (w : World) (val : AttrVal)
    (h : ∀ im, val = AttrVal.imap im → (x.typeconvMapStringAnything im).isSome = true) :
    ∃ v w1, convertVal x w val = some (v, w1) := by
  cases val with
  | imap im =>
    cases hc : x.typeconvMapStringAnything im with
    | none => have := h im rfl; rw [hc] at this; cases this
    | some entries => exact ⟨_, _, convertVal_imap_some x w im entries hc⟩
  | null | bool _ | int _ | str _ | map _ | list _ => exact ⟨_, _, rfl⟩

theorem callAttrChangeCallback_frame (x : Ext) (w : World) (rk : GoString) :
    (callAttrChangeCallback x w rk).world.maps = w.maps ∧
      (callAttrChangeCallback x w rk).world.e = w.e ∧
      (callAttrChangeCallback x w rk).world.nextAddr = w.nextAddr := by
  unfold callAttrChangeCallback
  simp only
  cases MethodByName (ascii "OnAttrChange_" ++ rk) with
  | none => exact ⟨rfl, rfl, rfl⟩
  | some callbackMethod =>
    simp only
    cases callbackMethod x { w with invoked := w.invoked ++ [ascii "OnAttrChange_" ++ rk] } with
    | none => exact ⟨rfl, rfl, rfl⟩
    | some u => exact ⟨rfl, rfl, rfl⟩

theorem callAttrChangeCallback_found (x : Ext) (w : World) (rk : GoString)
    (callbackMethod : Ext → World → Option Unit)
    (h : MethodByName (ascii "OnAttrChange_" ++ rk) = some callbackMethod) :
    (callAttrChangeCallback x w rk).world.invoked = w.invoked ++ [ascii "OnAttrChange_" ++ rk] ∧
      (callAttrChangeCallback x w rk).world.warned = w.warned ∧
      (callAttrChangeCallback x w rk).isDone
        = (callbackMethod x (callAttrChangeCallback x w rk).world).isSome := by
  unfold callAttrChangeCallback
  simp only [h]
  cases hc : callbackMethod x { w with invoked := w.invoked ++ [ascii "OnAttrChange_" ++ rk] } with
  | none => simp [Outcome.world, Outcome.isDone, hc]
  | some u => simp [Outcome.world, Outcome.isDone, hc]

theorem callAttrChangeCallback_missing (x : Ext) (w : World) (rk : GoString)
    (h : MethodByName (ascii "OnAttrChange_" ++ rk) = none) :
    (callAttrChangeCallback x w rk).world.invoked = w.invoked ∧
      (callAttrChangeCallback x w rk).world.warned = w.warned ++ [rk] ∧
      (callAttrChangeCallback x w rk).isDone = true := by
  unfold callAttrChangeCallback
  simp only [h]
  exact ⟨rfl, rfl, rfl⟩

theorem applyAttrChange_eq (x : Ext) (w w1 : World) (path : List GoString) (key : GoString)
    (val v : AttrVal) (a : Addr) (hres : findAttrByPath w path = some (some a))
    (hc : convertVal x w val = some (v, w1)) :
    applyAttrChange x w path key val
      = callAttrChangeCallback x (w1.store a ((w1.maps a).set key v)) (rootkey path key) := by
  unfold applyAttrChange
  rw [hres]
  simp only [hc]

theorem applyAttrChange_conv_panic (x : Ext) (w : World) (path : List GoString)
    (key : GoString) (val : AttrVal) (a : Addr)
    (hres : findAttrByPath w path = some (some a)) (hc : convertVal x w val = none) :
    applyAttrChange x w path key val = Outcome.panicked w := by
  unfold applyAttrChange
  rw [hres]
  simp only [hc]

theorem applyAttrDel_eq (x : Ext) (w : World) (path : List GoString) (key : GoString)
    (a : Addr) (hres : findAttrByPath w path = some (some a)) :
    applyAttrDel x w path key
      = callAttrChangeCallback x (w.store a ((w.maps a).del key)) (rootkey path key) := by
  unfold applyAttrDel
  rw [hres]

theorem descend_congr (maps maps' : Addr → ClientAttrs) (attr : Option Addr)
    (keys : List GoString) (h : ∀ o ∈ ancestors maps attr keys, maps' o = maps o) :
    descend maps' attr keys = descend maps attr keys := by
  induction keys generalizing attr with
  | nil => rw [descend_nil, descend_nil]
  | cons name rest ih =>
    cases attr with
    | none => rfl
    | some o =>
      have ho : maps' o = maps o := by
        apply h
        simp only [ancestors]
        split <;> simp
      simp only [descend, ho]
      cases hg : GoMap.get (maps o) name with
      | none => rfl
      | some v =>
        cases v with
        | map ref =>
          simp only
          apply ih
          intro o' ho'
          apply h
          simp only [ancestors, hg]
          exact List.mem_cons_of_mem _ ho'
        | null | bool _ | int _ | str _ | imap _ | list _ => rfl

theorem findAttrByPath_congr (w W : World) (path : List GoString)
    (he : W.e.Attrs = w.e.Attrs)
    (hm : ∀ o ∈ ancestors w.maps (some w.e.Attrs) path.reverse, W.maps o = w.maps o) :
    findAttrByPath W path = findAttrByPath w path := by
  rw [findAttrByPath_eq, findAttrByPath_eq, he]
  exact descend_congr w.maps W.maps _ _ hm

theorem applyAttrChange_effect (x : Ext) (w w1 : World) (path : List GoString)
    (key : GoString) (val v : AttrVal) (a : Addr)
    (hres : findAttrByPath w path = some (some a))
    (hc : convertVal x w val = some (v, w1)) (halloc : a < w.nextAddr) :
    GoMap.get ((applyAttrChange x w path key val).world.maps a) key = some v ∧
    (∀ k', k' ≠ key →
      GoMap.get ((applyAttrChange x w path key val).world.maps a) k'
        = GoMap.get (w.maps a) k') ∧
    (∀ b, b ≠ a → (applyAttrChange x w path key val).world.maps b = w1.maps b) ∧
    (applyAttrChange x w path key val).world.e = w.e := by
  obtain ⟨he, _, _, hm⟩ := convertVal_frame x w w1 val v hc
  obtain ⟨fm, fe, _⟩ := callAttrChangeCallback_frame x
    (w1.store a ((w1.maps a).set key v)) (rootkey path key)
  rw [applyAttrChange_eq x w w1 path key val v a hres hc, fm, fe]
  refine ⟨?_, ?_, ?_, he⟩
  · rw [store_maps_self]; exact GoMap.get_set_self _ _ _
  · intro k' hne
    rw [store_maps_self, GoMap.get_set_ne _ _ (Ne.symm hne), hm a (Nat.ne_of_lt halloc)]
  · intro b hb
    exact store_maps_ne w1 _ hb

/-- C5 as stated fails: on a fresh entity the empty path is resolvable, but
`applyAttrChange([], key, val)` with `val` a `map[interface{}]interface{}` that
has the key 7 panics in the conversion: for the key `exp`, whose handler
`OnAttrChange_exp` is registered, the handler is not invoked, and for the key
`mana`, which has no handler, the call does not complete and logs no warning.
In `sharedWorld` the path `["none"]` resolves to a nil map, and
`applyAttrChange(["none"], "x", 1)`, whose root key `none` has no handler,
panics on the assignment and logs no warning. -/
theorem attr_change_conversion_panics :
    findAttrByPath newWorld [] = some (some 0) ∧
    (MethodByName (ascii "OnAttrChange_" ++ rootkey [] (ascii "exp"))).isSome = true ∧
    (applyAttrChange stdExt newWorld [] (ascii "exp")
      (AttrVal.imap [(AttrVal.int 7, AttrVal.str (ascii "x"))])).world.invoked = [] ∧
    (MethodByName (ascii "OnAttrChange_" ++ rootkey [] (ascii "mana"))).isSome = false ∧
    (applyAttrChange stdExt newWorld [] (ascii "mana")
      (AttrVal.imap [(AttrVal.int 7, AttrVal.str (ascii "x"))])).isDone = false ∧
    (applyAttrChange stdExt newWorld [] (ascii "mana")
      (AttrVal.imap [(AttrVal.int 7, AttrVal.str (ascii "x"))])).world.warned = [] ∧
    findAttrByPath sharedWorld [ascii "none"] = some none ∧
    (MethodByName (ascii "OnAttrChange_" ++ rootkey [ascii "none"] (ascii "x"))).isSome
      = false ∧
    (applyAttrChange stdExt sharedWorld [ascii "none"] (ascii "x") (AttrVal.int 1)).isDone
      = false ∧
    (applyAttrChange stdExt sharedWorld [ascii "none"] (ascii "x")
      (AttrVal.int 1)).world.warned = [] :=
  ⟨rfl, rfl, rfl, rfl, rfl, rfl, rfl, rfl, rfl, rfl⟩

/-- C5, amended: on a path that resolves to a map object, for `applyAttrDel` and
for `applyAttrChange` with a value on which `typeconv.MapStringAnything` does not
panic, the callback selected is the one of the root key `K`, the last element of
`path` when `path` is not empty and `key` otherwise: when `OnAttrChange_K` is a
method of the entity it is invoked exactly once, nothing is warned about, and the
call returns exactly when the handler does not panic; when it is not, no method
is invoked, one warning about `K` is logged and the call returns.  An
`applyAttrChange` whose conversion panics changes nothing: no method is invoked
and nothing is warned about. -/
theorem attr_change_callback (x : Ext) (w : World) (path : List GoString) (key : GoString)
    (val : AttrVal) (a : Addr) (hres : findAttrByPath w path = some (some a)) :
    rootkey path key = path.getLast?.getD key ∧
    (∀ callbackMethod,
      MethodByName (ascii "OnAttrChange_" ++ rootkey path key) = some callbackMethod →
      ((∀ im, val = AttrVal.imap im → (x.typeconvMapStringAnything im).isSome = true) →
        (applyAttrChange x w path key val).world.invoked
            = w.invoked ++ [ascii "OnAttrChange_" ++ rootkey path key] ∧
        (applyAttrChange x w path key val).world.warned = w.warned ∧
        (applyAttrChange x w path key val).isDone
            = (callbackMethod x (applyAttrChange x w path key val).world).isSome) ∧
      (applyAttrDel x w path key).world.invoked
          = w.invoked ++ [ascii "OnAttrChange_" ++ rootkey path key] ∧
      (applyAttrDel x w path key).world.warned = w.warned ∧
      (applyAttrDel x w path key).isDone
          = (callbackMethod x (applyAttrDel x w path key).world).isSome) ∧
    (MethodByName (ascii "OnAttrChange_" ++ rootkey path key) = none →
      ((∀ im, val = AttrVal.imap im → (x.typeconvMapStringAnything im).isSome = true) →
        (applyAttrChange x w path key val).world.invoked = w.invoked ∧
        (applyAttrChange x w path key val).world.warned = w.warned ++ [rootkey path key] ∧
        (applyAttrChange x w path key val).isDone = true) ∧
      (applyAttrDel x w path key).world.invoked = w.invoked ∧
      (applyAttrDel x w path key).world.warned = w.warned ++ [rootkey path key] ∧
      (applyAttrDel x w path key).isDone = true) ∧
    (∀ im, val = AttrVal.imap im → x.typeconvMapStringAnything im = none →
      applyAttrChange x w path key val = Outcome.panicked w) := by
  refine ⟨rootkey_eq path key, ?_, ?_, ?_⟩
  · intro callbackMethod hm
    constructor
    · intro hconv
      obtain ⟨v, w1, hc⟩ := convertVal_isSome x w val hconv
      obtain ⟨_, hi, hw, _⟩ := convertVal_frame x w w1 val v hc
      rw [applyAttrChange_eq x w w1 path key val v a hres hc]
      have := callAttrChangeCallback_found x (w1.store a ((w1.maps a).set key v))
        (rootkey path key) callbackMethod hm
      exact ⟨this.1.trans (by rw [← hi]; rfl), this.2.1.trans (by rw [← hw]; rfl), this.2.2⟩
    · rw [applyAttrDel_eq x w path key a hres]
      exact callAttrChangeCallback_found x _ (rootkey path key) callbackMethod hm
  · intro hm
    constructor
    · intro hconv
      obtain ⟨v, w1, hc⟩ := convertVal_isSome x w val hconv
      obtain ⟨_, hi, hw, _⟩ := convertVal_frame x w w1 val v hc
      rw [applyAttrChange_eq x w w1 path key val v a hres hc]
      have := callAttrChangeCallback_missing x (w1.store a ((w1.maps a).set key v))
        (rootkey path key) hm
      exact ⟨this.1.trans (by rw [← hi]; rfl), this.2.1.trans (by rw [← hw]; rfl), this.2.2⟩
    · rw [applyAttrDel_eq x w path key a hres]
      exact callAttrChangeCallback_missing x _ (rootkey path key) hm
  · intro im hval hnone
    subst hval
    exact applyAttrChange_conv_panic x w path key _ a hres (convertVal_imap_none x w im hnone)

/-- C5 amended, on `{hp: 10, exp: 7, bag: {gold: 5, pouch: {gem: 1}}}` with
`quiet` unset: setting `exp` to 8 invokes `OnAttrChange_exp` once and returns;
setting `gold` under `bag` selects the root key `bag`, which has no handler, and
warns; deleting `exp` invokes `OnAttrChange_exp` once, which panics in `GetInt`
on the missing value, but returns when `quiet` is set; deleting the absent
`testpop` invokes `OnAttrChange_testpop` once and returns, and setting `testpop`
to a nil map makes that handler panic in `GetInt`; setting `subattr` invokes
`OnAttrChange_subattr` once and returns. -/
theorem attr_change_callback_witness :
    ((applyAttrChange stdExt bagWorld [] (ascii "exp") (AttrVal.int 8)).world.invoked
        = bagWorld.invoked ++ [ascii "OnAttrChange_" ++ rootkey [] (ascii "exp")] ∧
      (applyAttrChange stdExt bagWorld [] (ascii "exp") (AttrVal.int 8)).world.warned
        = bagWorld.warned ∧
      (applyAttrChange stdExt bagWorld [] (ascii "exp") (AttrVal.int 8)).isDone
        = (OnAttrChange_exp stdExt
            (applyAttrChange stdExt bagWorld [] (ascii "exp") (AttrVal.int 8)).world).isSome) ∧
    (applyAttrChange stdExt bagWorld [] (ascii "exp") (AttrVal.int 8)).world.invoked
      = [ascii "OnAttrChange_exp"] ∧
    (applyAttrChange stdExt bagWorld [] (ascii "exp") (AttrVal.int 8)).isDone = true ∧
    rootkey [ascii "bag"] (ascii "gold") = ascii "bag" ∧
    (applyAttrChange stdExt bagWorld [ascii "bag"] (ascii "gold") (AttrVal.int 6)).world.invoked
      = [] ∧
    (applyAttrChange stdExt bagWorld [ascii "bag"] (ascii "gold") (AttrVal.int 6)).world.warned
      = [ascii "bag"] ∧
    (applyAttrChange stdExt bagWorld [ascii "bag"] (ascii "gold") (AttrVal.int 6)).isDone
      = true ∧
    (applyAttrDel stdExt bagWorld [] (ascii "exp")).world.invoked = [ascii "OnAttrChange_exp"] ∧
    (applyAttrDel stdExt bagWorld [] (ascii "exp")).isDone = false ∧
    (applyAttrDel { stdExt with quiet := true } bagWorld [] (ascii "exp")).isDone = true ∧
    (applyAttrDel stdExt bagWorld [] (ascii "testpop")).world.invoked
      = [ascii "OnAttrChange_testpop"] ∧
    (applyAttrDel stdExt bagWorld [] (ascii "testpop")).isDone = true ∧
    (applyAttrChange stdExt bagWorld [] (ascii "testpop") (AttrVal.map none)).isDone
      = false ∧
    (applyAttrChange stdExt bagWorld [] (ascii "subattr") (AttrVal.map none)).world.invoked
      = [ascii "OnAttrChange_subattr"] ∧
    (applyAttrChange stdExt bagWorld [] (ascii "subattr") (AttrVal.map none)).isDone = true :=
  ⟨((attr_change_callback stdExt bagWorld [] (ascii "exp") (AttrVal.int 8) 0 rfl).2.1
      OnAttrChange_exp rfl).1 (fun _ h => AttrVal.noConfusion h),
    rfl, rfl, rfl, rfl, rfl, rfl, rfl, rfl, rfl, rfl, rfl, rfl, rfl, rfl⟩

/-- C9 as stated fails in four ways.  On a fresh entity, after
`applyAttrChange([], "bag", val)` with `val` an empty
`map[interface{}]interface{}` the root maps `bag` to a newly made
`map[string]interface{}` (object 1), not to `val`; with `val` a
`map[interface{}]interface{}` that has the key 7 the call panics and `bag` is not
set at all.  In `sharedWorld`, where one map object is stored under `a` and under
`b`, `applyAttrChange(["a"], "x", 1)` also changes the mapping that the path
`["b"]`, which is off the path `["a"]`, addresses; and the path `["none"]`
resolves to a nil map, on which `applyAttrChange(["none"], "x", 1)` panics and
stores nothing. -/
theorem applyAttr_claim_fails :
    GoMap.get ((applyAttrChange stdExt newWorld [] (ascii "bag")
        (AttrVal.imap [])).world.maps 0) (ascii "bag") = some (AttrVal.map (some 1)) ∧
    GoMap.get ((applyAttrChange stdExt newWorld [] (ascii "bag")
        (AttrVal.imap [])).world.maps 0) (ascii "bag") ≠ some (AttrVal.imap []) ∧
    (applyAttrChange stdExt newWorld [] (ascii "bag")
        (AttrVal.imap [(AttrVal.int 7, AttrVal.str (ascii "x"))])).isDone = false ∧
    GoMap.get ((applyAttrChange stdExt newWorld [] (ascii "bag")
        (AttrVal.imap [(AttrVal.int 7, AttrVal.str (ascii "x"))])).world.maps 0) (ascii "bag")
      = none ∧
    findAttrByPath sharedWorld [ascii "a"] = some (some 1) ∧
    findAttrByPath sharedWorld [ascii "b"] = some (some 1) ∧
    GoMap.get (deref sharedWorld.maps (some 1)) (ascii "x") = none ∧
    findAttrByPath (applyAttrChange stdExt sharedWorld [ascii "a"] (ascii "x")
        (AttrVal.int 1)).world [ascii "b"] = some (some 1) ∧
    GoMap.get (deref (applyAttrChange stdExt sharedWorld [ascii "a"] (ascii "x")
        (AttrVal.int 1)).world.maps (some 1)) (ascii "x") = some (AttrVal.int 1) ∧
    findAttrByPath sharedWorld [ascii "none"] = some none ∧
    (applyAttrChange stdExt sharedWorld [ascii "none"] (ascii "x") (AttrVal.int 1)).isDone
      = false ∧
    GoMap.get (deref (applyAttrChange stdExt sharedWorld [ascii "none"] (ascii "x")
        (AttrVal.int 1)).world.maps none) (ascii "x") = none :=
  ⟨rfl,
    show some (AttrVal.map (some 1)) ≠ some (AttrVal.imap []) from
      fun h => AttrVal.noConfusion (Option.some.inj h),
    rfl, rfl, rfl, rfl, rfl, rfl, rfl, rfl, rfl, rfl⟩

/-- C9, amended: let `findAttrByPath(path)` address the map object `a`, one that
exists.  After `applyAttrChange(path, key, val)` the object `a` maps `key` to `val`
when `val` is no `map[interface{}]interface{}`, and to the map that
`typeconv.MapStringAnything` has newly made from `val` when it is one and the
conversion does not panic; when the conversion panics the call panics with
nothing changed.  After `applyAttrDel(path, key)` the object `a` has no entry for
`key`.  In all these cases every other entry of `a` is as before and so is every
other map object that existed (a mapping reached by another path changes only
when it is the object `a` itself), and `findAttrByPath(path)` still addresses `a`
when `a` is not among the maps the walk reads from; all of this whether or not a
change handler exists for the root key and whether or not it panics. -/
theorem applyAttr_effect (x : Ext) (w : World) (path : List GoString) (key : GoString)
    (val : AttrVal) (a : Addr) (hres : findAttrByPath w path = some (some a))
    (halloc : a < w.nextAddr) :
    ((∀ im, val ≠ AttrVal.imap im) →
      GoMap.get ((applyAttrChange x w path key val).world.maps a) key = some val ∧
      (∀ k', k' ≠ key →
        GoMap.get ((applyAttrChange x w path key val).world.maps a) k'
          = GoMap.get (w.maps a) k') ∧
      (∀ b, b ≠ a → (applyAttrChange x w path key val).world.maps b = w.maps b) ∧
      (a ∉ ancestors w.maps (some w.e.Attrs) path.reverse →
        findAttrByPath (applyAttrChange x w path key val).world path = some (some a))) ∧
    (∀ im entries, val = AttrVal.imap im → x.typeconvMapStringAnything im = some entries →
      GoMap.get ((applyAttrChange x w path key val).world.maps a) key
        = some (AttrVal.map (some w.nextAddr)) ∧
      (applyAttrChange x w path key val).world.maps w.nextAddr = entries ∧
      (∀ k', k' ≠ key →
        GoMap.get ((applyAttrChange x w path key val).world.maps a) k'
          = GoMap.get (w.maps a) k') ∧
      (∀ b, b ≠ a → b < w.nextAddr →
        (applyAttrChange x w path key val).world.maps b = w.maps b) ∧
      (a ∉ ancestors w.maps (some w.e.Attrs) path.reverse →
        (∀ o ∈ ancestors w.maps (some w.e.Attrs) path.reverse, o < w.nextAddr) →
        findAttrByPath (applyAttrChange x w path key val).world path = some (some a))) ∧
    (∀ im, val = AttrVal.imap im → x.typeconvMapStringAnything im = none →
      applyAttrChange x w path key val = Outcome.panicked w) ∧
    (GoMap.get ((applyAttrDel x w path key).world.maps a) key = none ∧
      (∀ k', k' ≠ key →
        GoMap.get ((applyAttrDel x w path key).world.maps a) k' = GoMap.get (w.maps a) k') ∧
      (∀ b, b ≠ a → (applyAttrDel x w path key).world.maps b = w.maps b) ∧
      (a ∉ ancestors w.maps (some w.e.Attrs) path.reverse →
        findAttrByPath (applyAttrDel x w path key).world path = some (some a))) := by
  refine ⟨?_, ?_, ?_, ?_⟩
  · intro hval
    have hc := convertVal_not_imap x w val hval
    obtain ⟨h1, h2, h3, h4⟩ := applyAttrChange_effect x w w path key val val a hres hc halloc
    refine ⟨h1, h2, h3, fun hanc => ?_⟩
    rw [findAttrByPath_congr w _ path (by rw [h4]) ?_, hres]
    intro o ho
    exact h3 o (fun e => hanc (e ▸ ho))
  · intro im entries hval hsome
    subst hval
    have hc := convertVal_imap_some x w im entries hsome
    obtain ⟨h1, h2, h3, h4⟩ := applyAttrChange_effect x w _ path key _ _ a hres hc halloc
    have hother : ∀ b, b ≠ a → b ≠ w.nextAddr →
        (applyAttrChange x w path key (AttrVal.imap im)).world.maps b = w.maps b := by
      intro b hba hbn
      rw [h3 b hba]
      exact store_maps_ne w entries hbn
    refine ⟨h1, ?_, h2, fun b hba hlt => hother b hba (Nat.ne_of_lt hlt), fun hanc hlt => ?_⟩
    · rw [h3 _ (Nat.ne_of_gt halloc)]
      exact store_maps_self w _ entries
    · rw [findAttrByPath_congr w _ path (by rw [h4]) ?_, hres]
      intro o ho
      exact hother o (fun e => hanc (e ▸ ho)) (Nat.ne_of_lt (hlt o ho))
  · intro im hval hnone
    subst hval
    exact applyAttrChange_conv_panic x w path key _ a hres (convertVal_imap_none x w im hnone)
  · obtain ⟨fm, fe, _⟩ := callAttrChangeCallback_frame x
      (w.store a ((w.maps a).del key)) (rootkey path key)
    rw [applyAttrDel_eq x w path key a hres, fm]
    have h3 : ∀ b, b ≠ a → (w.store a ((w.maps a).del key)).maps b = w.maps b :=
      fun b hb => store_maps_ne w _ hb
    refine ⟨?_, ?_, h3, fun hanc => ?_⟩
    · rw [store_maps_self]; exact GoMap.get_del_self _ _
    · intro k' hne
      rw [store_maps_self]; exact GoMap.get_del_ne _ (Ne.symm hne)
    · rw [findAttrByPath_congr w _ path (by rw [fe]; rfl) ?_, hres]
      intro o ho
      rw [fm]
      exact h3 o (fun e => hanc (e ▸ ho))

/-- C9 amended, at the scenario of the specification and on
`{hp: 10, exp: 7, bag: {gold: 5, pouch: {gem: 1}}}`: `hp` is set to 10 at the
root of a fresh entity; `gold` under `bag` is set from 5 to 6 and `pouch` stays;
`gold` under `bag` is deleted and `pouch` stays. -/
theorem applyAttr_effect_witness :
    GoMap.get ((applyAttrChange stdExt newWorld [] (ascii "hp")
        (AttrVal.int 10)).world.maps 0) (ascii "hp") = some (AttrVal.int 10) ∧
    (GoMap.get ((applyAttrChange stdExt bagWorld [ascii "bag"] (ascii "gold")
        (AttrVal.int 6)).world.maps 1) (ascii "gold") = some (AttrVal.int 6) ∧
      (∀ k', k' ≠ ascii "gold" →
        GoMap.get ((applyAttrChange stdExt bagWorld [ascii "bag"] (ascii "gold")
            (AttrVal.int 6)).world.maps 1) k'
          = GoMap.get (bagWorld.maps 1) k') ∧
      (∀ b, b ≠ 1 →
        (applyAttrChange stdExt bagWorld [ascii "bag"] (ascii "gold")
          (AttrVal.int 6)).world.maps b = bagWorld.maps b) ∧
      (1 ∉ ancestors bagWorld.maps (some bagWorld.e.Attrs) [ascii "bag"].reverse →
        findAttrByPath (applyAttrChange stdExt bagWorld [ascii "bag"] (ascii "gold")
          (AttrVal.int 6)).world [ascii "bag"] = some (some 1))) ∧
    GoMap.get (bagWorld.maps 1) (ascii "gold") = some (AttrVal.int 5) ∧
    GoMap.get ((applyAttrDel stdExt bagWorld [ascii "bag"] (ascii "gold")).world.maps 1)
      (ascii "gold") = none ∧
    GoMap.get ((applyAttrDel stdExt bagWorld [ascii "bag"] (ascii "gold")).world.maps 1)
      (ascii "pouch") = some (AttrVal.map (some 2)) ∧
    findAttrByPath (applyAttrDel stdExt bagWorld [ascii "bag"] (ascii "gold")).world
      [ascii "bag"] = some (some 1) :=
  ⟨rfl,
    (applyAttr_effect stdExt bagWorld [ascii "bag"] (ascii "gold") (AttrVal.int 6) 1 rfl
      (by decide)).1 (fun _ h => AttrVal.noConfusion h),
    rfl,
    (applyAttr_effect stdExt bagWorld [ascii "bag"] (ascii "gold") (AttrVal.int 6) 1 rfl
      (by decide)).2.2.2.1,
    rfl,
    (applyAttr_effect stdExt bagWorld [ascii "bag"] (ascii "gold") (AttrVal.int 6) 1 rfl
      (by decide)).2.2.2.2.2.2 (by decide)⟩

end test_client
